import Mathlib

/-!
Android video decoder session (`video-decoder.c`, `video-decoder.h`).

A shallow embedding of the decoder session of
`android/app/src/main/cpp/video-decoder.c`:

* the session record `AndroidChiakiVideoDecoder` with its fixed array of four
  pending buffers, `bufs_count`, `timestamp_cur`, the `shutdown` flag and the
  two native handles `codec` and `window`;
* the four public functions `_init`, `_fini`, `_set_surface`, `_video_sample`;
* the two worker functions `_input_thread_func` and `_output_thread_func`.

Conventions of the embedding.

* A pointer is a natural number, `0` being `NULL`.  A buffer pointer held in
  `bufs` is represented by the bytes it points to (the `malloc`ed copy).
* `size_t` and `uint64_t` are naturals with explicit reduction modulo `2 ^ 64`
  wherever the source increments or decrements.
* An access to `bufs` / `bufs_sizes` outside `0 .. 3` is undefined behaviour in
  C; the embedding makes such an access return `none`.
* Calls into the media engine, the window system and the thread library do not
  compute anything here: their results come from an environment argument and
  the calls are recorded, in program order, in a list of `Event`s.
* Everything that happens while `codec_mutex` is held is one atomic step.
-/

namespace VideoDecoder

/-! ## Data model -/

/-- The capacity of the pending-buffer array (`video-decoder.h`, line 14). -/
def ANDROID_CHIAKI_VIDEO_DECODER_FRAME_BUFFER_SIZE : Nat := 4

/-- The modulus of `size_t` and `uint64_t` arithmetic, `2 ^ 64`. -/
def UINT64_MOD : Nat := 18446744073709551616

/-- A C array `T a[ANDROID_CHIAKI_VIDEO_DECODER_FRAME_BUFFER_SIZE]`. -/
structure Arr4 (α : Type) where
  e0 : α
  e1 : α
  e2 : α
  e3 : α
deriving DecidableEq, Repr

/-- The read `a[i]`; `none` when `i` is out of bounds. -/
def Arr4.get? {α : Type} (a : Arr4 α) : Nat → Option α
  | 0 => some a.e0
  | 1 => some a.e1
  | 2 => some a.e2
  | 3 => some a.e3
  | _ => none

/-- The write `a[i] = v`; `none` when `i` is out of bounds. -/
def Arr4.set? {α : Type} (a : Arr4 α) : Nat → α → Option (Arr4 α)
  | 0, v => some { a with e0 := v }
  | 1, v => some { a with e1 := v }
  | 2, v => some { a with e2 := v }
  | 3, v => some { a with e3 := v }
  | _, _ => none

/-- The four cells of the array, lowest index first. -/
def Arr4.toList {α : Type} (a : Arr4 α) : List α := [a.e0, a.e1, a.e2, a.e3]

/-- The record `struct android_chiaki_video_decoder_t` (`video-decoder.h`,
lines 16-33), without the log, mutex, condition and thread objects. -/
structure AndroidChiakiVideoDecoder where
  bufs : Arr4 (List Nat)
  bufs_sizes : Arr4 Nat
  bufs_count : Nat
  codec : Nat
  window : Nat
  timestamp_cur : Nat
  shutdown : Bool
  target_width : Int
  target_height : Int
  target_codec : Nat
deriving DecidableEq, Repr

/-- Constants and helpers that the source takes from the NDK and from the
chiaki library headers; their values are not fixed by the two source files. -/
structure NdkConsts where
  AMEDIA_OK : Int
  AMEDIACODEC_INFO_TRY_AGAIN_LATER : Int
  AMEDIACODEC_BUFFER_FLAG_END_OF_STREAM : Nat
  CHIAKI_ERR_SUCCESS : Int
  ANDROID_API : Nat
  chiaki_codec_is_h265 : Nat → Bool

/-- The messages passed to `CHIAKI_LOGI` / `CHIAKI_LOGE`. -/
inductive LogMsg where
  | sending_eos
  | fini_no_input_buffer
  | swapping_surface
  | already_initialized
  | initializing (h265 : Bool)
  | create_failed (h265 : Bool)
  | configure_failed (r : Int)
  | start_failed (r : Int)
  | input_thread_failed
  | output_thread_failed
  | input_buffer_failed (index : Int)
  | queue_input_failed (r : Int)
  | input_thread_exiting
  | reported_eos
  | shutdown_after_error
  | output_dequeue_error (status : Int)
  | output_thread_exiting
deriving DecidableEq, Repr

/-- The calls the session makes into its collaborators. -/
inductive Event where
  | ANativeWindow_fromSurface (surface result : Nat)
  | ANativeWindow_release (window : Nat)
  | AMediaCodec_createDecoderByType (h265 : Bool) (result : Nat)
  | AMediaFormat_new
  | AMediaFormat_delete
  | AMediaCodec_configure (codec window : Nat) (width height : Int)
  | AMediaCodec_start (codec : Nat)
  | AMediaCodec_stop (codec : Nat)
  | AMediaCodec_delete (codec : Nat)
  | AMediaCodec_setOutputSurface (codec window : Nat)
  | AMediaCodec_dequeueInputBuffer (codec : Nat)
  | AMediaCodec_getInputBuffer (codec : Nat) (index : Int)
  | AMediaCodec_queueInputBuffer (codec : Nat) (index : Int) (data : List Nat)
      (size : Nat) (timestamp : Nat) (end_of_stream : Bool)
  | AMediaCodec_dequeueOutputBuffer (codec : Nat)
  | AMediaCodec_releaseOutputBuffer (codec : Nat) (index : Int) (render : Bool)
  | chiaki_thread_create_input
  | chiaki_thread_create_output
  | chiaki_thread_join_input
  | chiaki_thread_join_output
  | chiaki_cond_signal
  | chiaki_mutex_fini
  | free (buf : List Nat)
  | CHIAKI_LOGI (msg : LogMsg)
  | CHIAKI_LOGE (msg : LogMsg)
deriving DecidableEq, Repr

/-- The pending units of a session, oldest first: the first `bufs_count`
cells of `bufs`, each with its recorded size. -/
def queue (decoder : AndroidChiakiVideoDecoder) : List (List Nat × Nat) :=
  (decoder.bufs.toList.zip decoder.bufs_sizes.toList).take decoder.bufs_count

/-! ## `android_chiaki_video_decoder_init` (lines 18-35) -/

/-- The function `android_chiaki_video_decoder_init`.  `decoder` is the memory
the caller passes in (its `bufs`, `bufs_sizes` and `window` are not written);
`mutex_err` and `cond_err` are the results of `chiaki_mutex_init` and
`chiaki_cond_init`. -/
def android_chiaki_video_decoder_init (K : NdkConsts)
    (decoder : AndroidChiakiVideoDecoder) (target_width target_height : Int)
    (codec : Nat) (mutex_err cond_err : Int) : AndroidChiakiVideoDecoder × Int :=
  let decoder := { decoder with
    codec := 0
    timestamp_cur := 0
    target_width := target_width
    target_height := target_height
    target_codec := codec
    shutdown := false
    bufs_count := 0 }
  if mutex_err ≠ K.CHIAKI_ERR_SUCCESS then (decoder, mutex_err)
  else (decoder, cond_err)

/-! ## `android_chiaki_video_decoder_fini` (lines 37-59) -/

/-- The function `android_chiaki_video_decoder_fini`.  `codec_buf_index` is the
result of `AMediaCodec_dequeueInputBuffer` (only asked for when there is a
codec). -/
def android_chiaki_video_decoder_fini (decoder : AndroidChiakiVideoDecoder)
    (codec_buf_index : Int) : AndroidChiakiVideoDecoder × List Event :=
  if decoder.codec ≠ 0 then
    let decoder := { decoder with shutdown := true }
    let ev := [Event.AMediaCodec_dequeueInputBuffer decoder.codec]
    let (decoder, ev) :=
      if codec_buf_index ≥ 0 then
        ({ decoder with timestamp_cur := (decoder.timestamp_cur + 1) % UINT64_MOD },
          ev ++ [Event.CHIAKI_LOGI LogMsg.sending_eos,
            Event.AMediaCodec_queueInputBuffer decoder.codec codec_buf_index [] 0
              decoder.timestamp_cur true])
      else
        (decoder, ev ++ [Event.CHIAKI_LOGE LogMsg.fini_no_input_buffer])
    (decoder, ev ++ [Event.AMediaCodec_stop decoder.codec,
      Event.chiaki_cond_signal,
      Event.chiaki_thread_join_output,
      Event.chiaki_thread_join_input,
      Event.AMediaCodec_delete decoder.codec,
      Event.chiaki_mutex_fini])
  else
    (decoder, [Event.chiaki_mutex_fini])

/-! ## `android_chiaki_video_decoder_set_surface` (lines 61-141) -/

/-- What the collaborators answer during one `set_surface` call. -/
structure SurfaceEnv where
  window : Nat
  codec : Nat
  configure : Int
  start : Int
  input_thread : Int
  output_thread : Int
deriving DecidableEq, Repr

/-- The label `error_surface:` (lines 135-137). -/
def set_surface_error_surface (decoder : AndroidChiakiVideoDecoder)
    (ev : List Event) : AndroidChiakiVideoDecoder × List Event :=
  ({ decoder with window := 0 }, ev ++ [Event.ANativeWindow_release decoder.window])

/-- The label `error_codec:` (lines 131-133), falling through. -/
def set_surface_error_codec (decoder : AndroidChiakiVideoDecoder)
    (ev : List Event) : AndroidChiakiVideoDecoder × List Event :=
  set_surface_error_surface { decoder with codec := 0 }
    (ev ++ [Event.AMediaCodec_delete decoder.codec])

/-- The label `error_input_thread:` (lines 128-129), falling through. -/
def set_surface_error_input_thread (decoder : AndroidChiakiVideoDecoder)
    (ev : List Event) : AndroidChiakiVideoDecoder × List Event :=
  set_surface_error_codec { decoder with shutdown := true } ev

/-- The function `android_chiaki_video_decoder_set_surface`; `surface` is the
`jobject` (`0` for `NULL`). -/
def android_chiaki_video_decoder_set_surface (K : NdkConsts)
    (decoder : AndroidChiakiVideoDecoder) (env : SurfaceEnv) (surface : Nat) :
    AndroidChiakiVideoDecoder × List Event :=
  if decoder.codec ≠ 0 then
    if K.ANDROID_API ≥ 23 then
      let ev := [Event.CHIAKI_LOGI LogMsg.swapping_surface]
      let (new_window, ev) :=
        if surface ≠ 0 then
          (env.window, ev ++ [Event.ANativeWindow_fromSurface surface env.window])
        else (0, ev)
      ({ decoder with window := new_window },
        ev ++ [Event.AMediaCodec_setOutputSurface decoder.codec new_window,
          Event.ANativeWindow_release decoder.window])
    else
      (decoder, [Event.CHIAKI_LOGE LogMsg.already_initialized])
  else
    let decoder := { decoder with window := env.window }
    let mime := K.chiaki_codec_is_h265 decoder.target_codec
    let decoder := { decoder with codec := env.codec }
    let ev := [Event.ANativeWindow_fromSurface surface env.window,
      Event.CHIAKI_LOGI (LogMsg.initializing mime),
      Event.AMediaCodec_createDecoderByType mime env.codec]
    if decoder.codec = 0 then
      set_surface_error_surface decoder
        (ev ++ [Event.CHIAKI_LOGE (LogMsg.create_failed mime)])
    else
      let ev := ev ++ [Event.AMediaFormat_new,
        Event.AMediaCodec_configure decoder.codec decoder.window
          decoder.target_width decoder.target_height]
      if env.configure ≠ K.AMEDIA_OK then
        set_surface_error_codec decoder
          (ev ++ [Event.CHIAKI_LOGE (LogMsg.configure_failed env.configure),
            Event.AMediaFormat_delete])
      else
        let ev := ev ++ [Event.AMediaCodec_start decoder.codec, Event.AMediaFormat_delete]
        if env.start ≠ K.AMEDIA_OK then
          set_surface_error_codec decoder
            (ev ++ [Event.CHIAKI_LOGE (LogMsg.start_failed env.start)])
        else if env.input_thread ≠ K.CHIAKI_ERR_SUCCESS then
          set_surface_error_codec decoder
            (ev ++ [Event.CHIAKI_LOGE LogMsg.input_thread_failed])
        else
          let ev := ev ++ [Event.chiaki_thread_create_input]
          if env.output_thread ≠ K.CHIAKI_ERR_SUCCESS then
            set_surface_error_input_thread decoder
              (ev ++ [Event.CHIAKI_LOGE LogMsg.output_thread_failed])
          else
            (decoder, ev ++ [Event.chiaki_thread_create_output])

/-! ## `android_chiaki_video_decoder_video_sample` (lines 143-164) -/

/-- The function `android_chiaki_video_decoder_video_sample`.  The arguments
`buf`, `buf_size` are the byte sequence `buf` and its length; `malloc_ok` tells
whether `malloc(buf_size)` returned a non-null pointer. -/
def android_chiaki_video_decoder_video_sample (buf : List Nat) (malloc_ok : Bool)
    (decoder : AndroidChiakiVideoDecoder) : Option (Bool × AndroidChiakiVideoDecoder) :=
  if decoder.bufs_count ≥ ANDROID_CHIAKI_VIDEO_DECODER_FRAME_BUFFER_SIZE then
    some (false, decoder)
  else if malloc_ok = false then
    some (false, decoder)
  else do
    let buf_copy := buf
    let bufs ← decoder.bufs.set? decoder.bufs_count buf_copy
    let bufs_sizes ← decoder.bufs_sizes.set? decoder.bufs_count buf.length
    some (true, { decoder with
      bufs := bufs
      bufs_sizes := bufs_sizes
      bufs_count := (decoder.bufs_count + 1) % UINT64_MOD })

/-! ## `android_chiaki_video_decoder_input_thread_func` (lines 166-227) -/

/-- The `for` loop of lines 182-186, started at index `i` with `n` iterations
still to run. -/
def input_thread_shift : Nat → Nat → AndroidChiakiVideoDecoder →
    Option AndroidChiakiVideoDecoder
  | 0, _, decoder => some decoder
  | n + 1, i, decoder => do
    let b ← decoder.bufs.get? (i + 1)
    let bufs ← decoder.bufs.set? i b
    let s ← decoder.bufs_sizes.get? (i + 1)
    let bufs_sizes ← decoder.bufs_sizes.set? i s
    input_thread_shift n (i + 1) { decoder with bufs := bufs, bufs_sizes := bufs_sizes }

/-- What one pass of the input thread through its locked section does. -/
inductive InputStep where
  | waiting
  | exit
  | dequeued (decoder : AndroidChiakiVideoDecoder) (buf_start : List Nat)
      (buf_size : Nat) (timestamp : Nat)
deriving DecidableEq, Repr

/-- Lines 176-190 of the input thread: the wait, the shutdown test and the
dequeue, all under `codec_mutex`.  `waiting` means the thread stays in
`chiaki_cond_wait` (neither shutdown nor a pending buffer). -/
def input_thread_locked (decoder : AndroidChiakiVideoDecoder) : Option InputStep :=
  if decoder.shutdown = false ∧ decoder.bufs_count = 0 then
    some InputStep.waiting
  else if decoder.shutdown = true then
    some InputStep.exit
  else do
    let buf_start ← decoder.bufs.get? 0
    let buf_size ← decoder.bufs_sizes.get? 0
    let decoder ← input_thread_shift
      ((decoder.bufs_count + UINT64_MOD - 1) % UINT64_MOD) 0 decoder
    let decoder := { decoder with
      bufs_count := (decoder.bufs_count + UINT64_MOD - 1) % UINT64_MOD }
    let timestamp := decoder.timestamp_cur
    let decoder := { decoder with
      timestamp_cur := (decoder.timestamp_cur + 1) % UINT64_MOD }
    some (InputStep.dequeued decoder buf_start buf_size timestamp)

/-- What the engine answers in one pass of the transfer loop: the result of
`AMediaCodec_dequeueInputBuffer`, the capacity `AMediaCodec_getInputBuffer`
reports, and the status of `AMediaCodec_queueInputBuffer`. -/
structure InputSlot where
  codec_buf_index : Int
  codec_buf_size : Nat
  queue_status : Int
deriving DecidableEq, Repr

/-- The transfer loop `while(buf_size > 0)` of lines 192-218, run against the
list of engine answers `slots`.  The result is the calls made and the answers
not consumed; `none` when the answers run out while bytes remain. -/
def input_thread_transfer (K : NdkConsts) (codec : Nat) (timestamp : Nat) :
    List InputSlot → List Nat → Nat → Option (List Event × List InputSlot)
  | [], _, buf_size => if buf_size > 0 then none else some ([], [])
  | slot :: slots, buf, buf_size =>
    if buf_size > 0 then
      if slot.codec_buf_index < 0 then
        some ([Event.AMediaCodec_dequeueInputBuffer codec,
          Event.CHIAKI_LOGE (LogMsg.input_buffer_failed slot.codec_buf_index)], slots)
      else
        let codec_buf_size := slot.codec_buf_size
        let codec_sample_size :=
          if buf_size > codec_buf_size then codec_buf_size else buf_size
        let ev := [Event.AMediaCodec_dequeueInputBuffer codec,
          Event.AMediaCodec_getInputBuffer codec slot.codec_buf_index,
          Event.AMediaCodec_queueInputBuffer codec slot.codec_buf_index
            (buf.take codec_sample_size) codec_sample_size timestamp false]
        let ev := if slot.queue_status ≠ K.AMEDIA_OK then
            ev ++ [Event.CHIAKI_LOGE (LogMsg.queue_input_failed slot.queue_status)]
          else ev
        match input_thread_transfer K codec timestamp slots
            (buf.drop codec_sample_size) (buf_size - codec_sample_size) with
        | none => none
        | some (ev', rest) => some (ev ++ ev', rest)
    else some ([], slot :: slots)

/-- How a run of the input thread on its own ends. -/
inductive InputThreadEnd where
  | exited
  | blocked
deriving DecidableEq, Repr

/-- The body `while(1)` of the input thread (lines 174-221), run with no other
thread touching the session, for at most `fuel` passes.  `blocked` means the
thread is left in `chiaki_cond_wait`. -/
def input_thread_loop (K : NdkConsts) : Nat → AndroidChiakiVideoDecoder →
    List InputSlot → Option (InputThreadEnd × AndroidChiakiVideoDecoder × List Event)
  | 0, _, _ => none
  | fuel + 1, decoder, slots =>
    match input_thread_locked decoder with
    | none => none
    | some InputStep.waiting => some (InputThreadEnd.blocked, decoder, [])
    | some InputStep.exit => some (InputThreadEnd.exited, decoder, [])
    | some (InputStep.dequeued decoder buf_start buf_size timestamp) =>
      match input_thread_transfer K decoder.codec timestamp slots buf_start buf_size with
      | none => none
      | some (ev, slots) =>
        match input_thread_loop K fuel decoder slots with
        | none => none
        | some (e, decoder, ev') => some (e, decoder, ev ++ [Event.free buf_start] ++ ev')

/-- The function `android_chiaki_video_decoder_input_thread_func`, run with no
other thread touching the session. -/
def android_chiaki_video_decoder_input_thread_func (K : NdkConsts) (fuel : Nat)
    (decoder : AndroidChiakiVideoDecoder) (slots : List InputSlot) :
    Option (InputThreadEnd × AndroidChiakiVideoDecoder × List Event) :=
  if decoder.codec = 0 then
    some (InputThreadEnd.exited, decoder, [Event.CHIAKI_LOGI LogMsg.input_thread_exiting])
  else
    match input_thread_loop K fuel decoder slots with
    | none => none
    | some (InputThreadEnd.exited, decoder, ev) =>
      some (InputThreadEnd.exited, decoder,
        ev ++ [Event.CHIAKI_LOGI LogMsg.input_thread_exiting])
    | some (InputThreadEnd.blocked, decoder, ev) =>
      some (InputThreadEnd.blocked, decoder, ev)

/-! ## `android_chiaki_video_decoder_output_thread_func` (lines 229-264) -/

/-- What the engine answers to one `AMediaCodec_dequeueOutputBuffer`. -/
structure OutputPoll where
  status : Int
  info_size : Int
  info_flags : Nat
deriving DecidableEq, Repr

/-- One pass of the loop `while(1)` of the output thread (lines 235-258).
`decoder` is the session as the pass sees it.  The result is `true` when the
pass ends in `break`, together with the calls made. -/
def output_thread_step (K : NdkConsts) (decoder : AndroidChiakiVideoDecoder)
    (poll : OutputPoll) : Bool × List Event :=
  let ev := [Event.AMediaCodec_dequeueOutputBuffer decoder.codec]
  if poll.status ≥ 0 then
    let ev := ev ++ [Event.AMediaCodec_releaseOutputBuffer decoder.codec poll.status
      (decide (poll.info_size ≠ 0))]
    if Nat.land poll.info_flags K.AMEDIACODEC_BUFFER_FLAG_END_OF_STREAM ≠ 0 then
      (true, ev ++ [Event.CHIAKI_LOGI LogMsg.reported_eos])
    else (false, ev)
  else
    let shutdown := decoder.shutdown
    if shutdown = true then
      (true, ev ++ [Event.CHIAKI_LOGI LogMsg.shutdown_after_error])
    else if poll.status ≠ K.AMEDIACODEC_INFO_TRY_AGAIN_LATER then
      (false, ev ++ [Event.CHIAKI_LOGE (LogMsg.output_dequeue_error poll.status)])
    else (false, ev)

/-- The function `android_chiaki_video_decoder_output_thread_func`, run against
a list of passes, each giving the session as that pass sees it and the engine
answer.  `none` when the list ends before the loop does. -/
def android_chiaki_video_decoder_output_thread_func (K : NdkConsts) :
    List (AndroidChiakiVideoDecoder × OutputPoll) → Option (List Event)
  | [] => none
  | (decoder, poll) :: rest =>
    match output_thread_step K decoder poll with
    | (true, ev) => some (ev ++ [Event.CHIAKI_LOGI LogMsg.output_thread_exiting])
    | (false, ev) =>
      match android_chiaki_video_decoder_output_thread_func K rest with
      | none => none
      | some ev' => some (ev ++ ev')

/-! ## Interleavings of the public functions and the input thread -/

/-- One atomic step on a session: a public call, or one pass of an input
thread through its locked section (`feed`). -/
inductive Op where
  | submit (buf : List Nat) (malloc_ok : Bool)
  | feed
  | set_surface (env : SurfaceEnv) (surface : Nat)
  | fini (codec_buf_index : Int)
deriving DecidableEq, Repr

/-- The timestamps of the end-of-stream buffers queued in a list of calls. -/
def eos_timestamps : List Event → List Nat
  | [] => []
  | Event.AMediaCodec_queueInputBuffer _ _ _ _ timestamp true :: ev =>
    timestamp :: eos_timestamps ev
  | _ :: ev => eos_timestamps ev

/-- A session together with what has been observed of it so far: the return
values of the `video_sample` calls, the units the input thread has dequeued
(bytes, size, timestamp) and the timestamps of the end-of-stream buffers, each
in order of occurrence, and the calls made by `set_surface` and `fini`. -/
structure Run where
  decoder : AndroidChiakiVideoDecoder
  results : List Bool
  fed : List (List Nat × Nat × Nat)
  eos : List Nat
  trace : List Event
deriving DecidableEq, Repr

/-- The run that has just begun on `decoder`. -/
def Run.start (decoder : AndroidChiakiVideoDecoder) : Run :=
  { decoder := decoder, results := [], fed := [], eos := [], trace := [] }

/-- One step of a run; `none` when the step accesses `bufs` out of bounds.

An input thread exists only once `set_surface` has created it, and on entry it
returns at once when `codec` is `NULL` (lines 171-172).  `set_surface` holds
`codec_mutex` from start to end, and between two steps `codec` is non-null
exactly when a `set_surface` call has succeeded, after which no step resets
it.  So while `codec` is `NULL` no input thread is in its loop and `feed`
changes nothing; otherwise `feed` is one pass through lines 176-190. -/
def step (K : NdkConsts) (r : Run) : Op → Option Run
  | Op.submit buf malloc_ok =>
    match android_chiaki_video_decoder_video_sample buf malloc_ok r.decoder with
    | none => none
    | some (ok, decoder) =>
      some { r with decoder := decoder, results := r.results ++ [ok] }
  | Op.feed =>
    if r.decoder.codec = 0 then some r
    else
      match input_thread_locked r.decoder with
      | none => none
      | some InputStep.waiting => some r
      | some InputStep.exit => some r
      | some (InputStep.dequeued decoder buf_start buf_size timestamp) =>
        some { r with decoder := decoder,
                      fed := r.fed ++ [(buf_start, buf_size, timestamp)] }
  | Op.set_surface env surface =>
    let (decoder, ev) := android_chiaki_video_decoder_set_surface K r.decoder env surface
    some { r with decoder := decoder, trace := r.trace ++ ev }
  | Op.fini codec_buf_index =>
    let (decoder, ev) := android_chiaki_video_decoder_fini r.decoder codec_buf_index
    some { r with decoder := decoder, eos := r.eos ++ eos_timestamps ev,
                  trace := r.trace ++ ev }

/-- A finite interleaving, step by step. -/
def run (K : NdkConsts) : Run → List Op → Option Run
  | r, [] => some r
  | r, op :: ops =>
    match step K r op with
    | none => none
    | some r' => run K r' ops

/-- The units handed to `video_sample` in an interleaving, in call order,
each with its length. -/
def submitted : List Op → List (List Nat × Nat)
  | [] => []
  | Op.submit buf _ :: ops => (buf, buf.length) :: submitted ops
  | _ :: ops => submitted ops

/-- The (bytes, size) pairs of the units the input thread has dequeued. -/
def units (fed : List (List Nat × Nat × Nat)) : List (List Nat × Nat) :=
  fed.map (fun u => (u.1, u.2.1))

/-- The timestamps of the units the input thread has dequeued. -/
def stamps (fed : List (List Nat × Nat × Nat)) : List Nat :=
  fed.map (fun u => u.2.2)

/-- The interleaving consists of `video_sample` calls whose allocation
succeeds and of passes of the input thread only. -/
def only_submit_and_feed : List Op → Bool
  | [] => true
  | Op.submit _ malloc_ok :: ops => malloc_ok && only_submit_and_feed ops
  | Op.feed :: ops => only_submit_and_feed ops
  | _ :: _ => false

/-- At every `video_sample` call of the interleaving the queue holds fewer
than `ANDROID_CHIAKI_VIDEO_DECODER_FRAME_BUFFER_SIZE` units. -/
def submits_find_room (K : NdkConsts) : Run → List Op → Bool
  | _, [] => true
  | r, op :: ops =>
    (match op with
      | Op.submit _ _ =>
        decide (r.decoder.bufs_count < ANDROID_CHIAKI_VIDEO_DECODER_FRAME_BUFFER_SIZE)
      | _ => true) &&
    (match step K r op with
      | none => false
      | some r' => submits_find_room K r' ops)

/-- The timestamps handed out so far are `0, 1, 2, ...` (modulo `2 ^ 64`) in
the order units first, end-of-stream buffers after them; the counter is the
next value; and an end-of-stream buffer has only been sent with the shutdown
flag raised. -/
def StampInv (r : Run) : Prop :=
  r.decoder.timestamp_cur = (r.fed.length + r.eos.length) % UINT64_MOD ∧
  stamps r.fed ++ r.eos
    = (List.range (r.fed.length + r.eos.length)).map (fun k => k % UINT64_MOD) ∧
  (r.eos ≠ [] → r.decoder.shutdown = true)

/-- The interleaving of `n` rounds, each a `video_sample` call with the
one-byte payload `0` followed by one pass of the input thread. -/
def submit_feed_rounds : Nat → List Op
  | 0 => []
  | n + 1 => Op.submit [0] true :: Op.feed :: submit_feed_rounds n

/-- The data transfers among a list of calls: bytes, size and timestamp of
every `AMediaCodec_queueInputBuffer` that is not an end-of-stream buffer. -/
def transfers : List Event → List (List Nat × Nat × Nat)
  | [] => []
  | Event.AMediaCodec_queueInputBuffer _ _ data size timestamp false :: ev =>
    (data, size, timestamp) :: transfers ev
  | _ :: ev => transfers ev

/-- The transfers as the specification words them, for a payload `p`, the
offset `off` reached so far and the capacities of the slots still to come: the
next transfer copies `min(remaining, c)` bytes of `p` starting at `off`, where
`remaining = |p| - off`, and the one after it starts at `off + c`; transfers
stop when nothing remains. -/
def claimed_transfers (p : List Nat) : Nat → List Nat → List (List Nat)
  | _, [] => []
  | off, c :: cs =>
    if off < p.length then
      (p.drop off).take (min (p.length - off) c) :: claimed_transfers p (off + c) cs
    else []

/-! ## Concrete inputs -/

/-- The NDK values: `AMEDIA_OK = 0`, `AMEDIACODEC_INFO_TRY_AGAIN_LATER = -1`,
`AMEDIACODEC_BUFFER_FLAG_END_OF_STREAM = 4`, and `CHIAKI_ERR_SUCCESS = 0`,
API level 23, codec value 1 standing for H265. -/
def sampleConsts : NdkConsts :=
  { AMEDIA_OK := 0
    AMEDIACODEC_INFO_TRY_AGAIN_LATER := -1
    AMEDIACODEC_BUFFER_FLAG_END_OF_STREAM := 4
    CHIAKI_ERR_SUCCESS := 0
    ANDROID_API := 23
    chiaki_codec_is_h265 := fun c => c == 1 }

/-- A session record before `init`, all zero. -/
def zeroDecoder : AndroidChiakiVideoDecoder :=
  { bufs := ⟨[], [], [], []⟩
    bufs_sizes := ⟨0, 0, 0, 0⟩
    bufs_count := 0
    codec := 0
    window := 0
    timestamp_cur := 0
    shutdown := false
    target_width := 0
    target_height := 0
    target_codec := 0 }

/-- The session after `init(1280, 720, H264)`. -/
def freshDecoder : AndroidChiakiVideoDecoder :=
  (android_chiaki_video_decoder_init sampleConsts zeroDecoder 1280 720 0 0 0).1

/-- A running session (codec handle 7, window handle 5) whose queue is full. -/
def fullDecoder : AndroidChiakiVideoDecoder :=
  { freshDecoder with
    bufs := ⟨[1], [2, 3], [4], [5, 6, 7]⟩
    bufs_sizes := ⟨1, 2, 1, 3⟩
    bufs_count := 4
    codec := 7
    window := 5 }

/-- A running session (codec handle 7, window handle 5) with an empty queue. -/
def runningDecoder : AndroidChiakiVideoDecoder :=
  { freshDecoder with codec := 7, window := 5 }

/-- The full running session once shutdown has been signalled. -/
def closingDecoder : AndroidChiakiVideoDecoder :=
  { fullDecoder with shutdown := true }

/-- An output poll that reports an error status other than the timeout. -/
def errorPoll : OutputPoll := { status := -10000, info_size := 0, info_flags := 0 }

/-- An output poll that reports the timeout status. -/
def timeoutPoll : OutputPoll := { status := -1, info_size := 0, info_flags := 0 }

/-- An output poll that delivers buffer 0 with the end-of-stream flag. -/
def eosPoll : OutputPoll := { status := 0, info_size := 0, info_flags := 4 }

/-- Engine answers for a `set_surface` call in which the codec (handle 7) is
created on window 5 and `AMediaCodec_configure` then fails with status -10000. -/
def configureFails : SurfaceEnv :=
  { window := 5, codec := 7, configure := -10000, start := 0, input_thread := 0,
    output_thread := 0 }

/-- Engine answers for a `set_surface` call in which everything succeeds:
window handle 5, codec handle 7. -/
def surfaceSucceeds : SurfaceEnv :=
  { window := 5, codec := 7, configure := 0, start := 0, input_thread := 0,
    output_thread := 0 }

/-- A session's life: the surface is set, two units of different sizes are
submitted and dequeued, and the session is shut down. -/
def sessionOps : List Op :=
  [Op.set_surface surfaceSucceeds 3, Op.submit [1, 2, 3] true, Op.submit [4] true,
   Op.feed, Op.feed, Op.fini 0]

/-- A running session (codec handle 7) with two units queued, of five and of
two bytes, and the timestamp counter at 5. -/
def twoUnitsDecoder : AndroidChiakiVideoDecoder :=
  { runningDecoder with
    bufs := ⟨[1, 2, 3, 4, 5], [6, 7], [], []⟩
    bufs_sizes := ⟨5, 2, 0, 0⟩
    bufs_count := 2
    timestamp_cur := 5 }

/-- Engine answers: two slots of capacity two, a failed acquisition, then a
slot of capacity nine. -/
def twoSlotsThenFailure : List InputSlot :=
  [⟨0, 2, 0⟩, ⟨1, 2, 0⟩, ⟨-1, 0, 0⟩, ⟨2, 9, 0⟩]

/-! ## Basic facts about the queue operations -/

/-- The unsigned decrement of a positive count does not wrap. -/
theorem wrap_pred (n : Nat) (h1 : 1 ≤ n) (h4 : n < UINT64_MOD) :
    (n + UINT64_MOD - 1) % UINT64_MOD = n - 1 := by
  unfold UINT64_MOD at *
  omega

theorem video_sample_full (buf : List Nat) (malloc_ok : Bool)
    (decoder : AndroidChiakiVideoDecoder)
    (h : ANDROID_CHIAKI_VIDEO_DECODER_FRAME_BUFFER_SIZE ≤ decoder.bufs_count) :
    android_chiaki_video_decoder_video_sample buf malloc_ok decoder = some (false, decoder) := by
  unfold android_chiaki_video_decoder_video_sample
  simp [h]

theorem video_sample_malloc_failed (buf : List Nat)
    (decoder : AndroidChiakiVideoDecoder) :
    android_chiaki_video_decoder_video_sample buf false decoder = some (false, decoder) := by
  unfold android_chiaki_video_decoder_video_sample
  simp

/-- An accepted `video_sample`: the copy goes to cell `bufs_count`, the queue
grows at its end, and nothing else changes. -/
theorem video_sample_accept (buf : List Nat) (decoder : AndroidChiakiVideoDecoder)
    (h : decoder.bufs_count < ANDROID_CHIAKI_VIDEO_DECODER_FRAME_BUFFER_SIZE) :
    ∃ d, android_chiaki_video_decoder_video_sample buf true decoder = some (true, d) ∧
      d.bufs.get? decoder.bufs_count = some buf ∧
      d.bufs_sizes.get? decoder.bufs_count = some buf.length ∧
      d.bufs_count = decoder.bufs_count + 1 ∧
      queue d = queue decoder ++ [(buf, buf.length)] ∧
      d.codec = decoder.codec ∧ d.window = decoder.window ∧
      d.timestamp_cur = decoder.timestamp_cur ∧ d.shutdown = decoder.shutdown := by
  obtain ⟨bufs, sizes, count, c, w, t, s, tw, th, tc⟩ := decoder
  simp only [ANDROID_CHIAKI_VIDEO_DECODER_FRAME_BUFFER_SIZE] at h
  have e : (count + 1) % UINT64_MOD = count + 1 := by
    unfold UINT64_MOD
    omega
  simp only [android_chiaki_video_decoder_video_sample, e]
  interval_cases count <;>
    simp [ANDROID_CHIAKI_VIDEO_DECODER_FRAME_BUFFER_SIZE, Arr4.set?, Arr4.get?, queue,
      Arr4.toList]

/-- A `video_sample` call never accesses `bufs` out of bounds, and it changes
the session only by appending to the queue. -/
theorem video_sample_total (buf : List Nat) (malloc_ok : Bool)
    (decoder : AndroidChiakiVideoDecoder) :
    ∃ ok d, android_chiaki_video_decoder_video_sample buf malloc_ok decoder = some (ok, d) ∧
      (ok = true ↔ (decoder.bufs_count < ANDROID_CHIAKI_VIDEO_DECODER_FRAME_BUFFER_SIZE ∧
        malloc_ok = true)) ∧
      (ok = false → d = decoder) ∧
      (ok = true → d.bufs_count = decoder.bufs_count + 1 ∧
        queue d = queue decoder ++ [(buf, buf.length)]) ∧
      d.codec = decoder.codec ∧ d.window = decoder.window ∧
      d.timestamp_cur = decoder.timestamp_cur ∧ d.shutdown = decoder.shutdown := by
  by_cases h : decoder.bufs_count < ANDROID_CHIAKI_VIDEO_DECODER_FRAME_BUFFER_SIZE
  · cases malloc_ok with
    | false =>
      exact ⟨false, decoder, video_sample_malloc_failed buf decoder, by simp, by simp,
        by simp, rfl, rfl, rfl, rfl⟩
    | true =>
      obtain ⟨d, h1, _, _, h4, h5, h6, h7, h8, h9⟩ := video_sample_accept buf decoder h
      exact ⟨true, d, h1, by simp [h], by simp, fun _ => ⟨h4, h5⟩, h6, h7, h8, h9⟩
  · have h' := Nat.le_of_not_lt h
    exact ⟨false, decoder, video_sample_full buf malloc_ok decoder h', by simp [h], by simp,
      by simp, rfl, rfl, rfl, rfl⟩

/-- Small counts are their own residues. -/
theorem small_mod (n : Nat) (h : n ≤ ANDROID_CHIAKI_VIDEO_DECODER_FRAME_BUFFER_SIZE) :
    n % UINT64_MOD = n := by
  unfold UINT64_MOD
  unfold ANDROID_CHIAKI_VIDEO_DECODER_FRAME_BUFFER_SIZE at h
  omega

/-- The dequeue of the input thread on a session that is not shutting down and
holds between one and four units: the oldest unit leaves, the others keep
their order, the timestamp counter advances by one. -/
theorem input_thread_locked_dequeue (decoder : AndroidChiakiVideoDecoder)
    (hs : decoder.shutdown = false) (h1 : 1 ≤ decoder.bufs_count)
    (h4 : decoder.bufs_count ≤ ANDROID_CHIAKI_VIDEO_DECODER_FRAME_BUFFER_SIZE) :
    ∃ d,
      input_thread_locked decoder =
        some (InputStep.dequeued d decoder.bufs.e0 decoder.bufs_sizes.e0
          decoder.timestamp_cur) ∧
      queue decoder = (decoder.bufs.e0, decoder.bufs_sizes.e0) :: queue d ∧
      d.bufs_count + 1 = decoder.bufs_count ∧
      d.timestamp_cur = (decoder.timestamp_cur + 1) % UINT64_MOD ∧
      d.codec = decoder.codec ∧ d.window = decoder.window ∧
      d.shutdown = decoder.shutdown := by
  obtain ⟨bufs, sizes, count, c, w, t, s, tw, th, tc⟩ := decoder
  simp only at hs h1
  subst hs
  have e : (count + UINT64_MOD - 1) % UINT64_MOD = count - 1 :=
    wrap_pred count h1 (by
      unfold UINT64_MOD
      unfold ANDROID_CHIAKI_VIDEO_DECODER_FRAME_BUFFER_SIZE at h4
      simp only at h4
      omega)
  have m1 := small_mod 1 (by decide)
  have m2 := small_mod 2 (by decide)
  have m3 := small_mod 3 (by decide)
  simp only [ANDROID_CHIAKI_VIDEO_DECODER_FRAME_BUFFER_SIZE] at h4
  simp only [input_thread_locked, e]
  interval_cases count <;>
    simp [input_thread_shift, Arr4.set?, Arr4.get?, queue, Arr4.toList, m1, m2, m3]

theorem input_thread_locked_waiting (decoder : AndroidChiakiVideoDecoder)
    (hs : decoder.shutdown = false) (h0 : decoder.bufs_count = 0) :
    input_thread_locked decoder = some InputStep.waiting := by
  unfold input_thread_locked
  simp [hs, h0]

theorem input_thread_locked_exit (decoder : AndroidChiakiVideoDecoder)
    (hs : decoder.shutdown = true) :
    input_thread_locked decoder = some InputStep.exit := by
  unfold input_thread_locked
  simp [hs]

/-- A call of `set_surface` leaves the queue and the timestamp counter alone,
and can only raise the shutdown flag. -/
theorem set_surface_frame (K : NdkConsts) (decoder : AndroidChiakiVideoDecoder)
    (env : SurfaceEnv) (surface : Nat) :
    (android_chiaki_video_decoder_set_surface K decoder env surface).1.bufs = decoder.bufs ∧
    (android_chiaki_video_decoder_set_surface K decoder env surface).1.bufs_sizes
      = decoder.bufs_sizes ∧
    (android_chiaki_video_decoder_set_surface K decoder env surface).1.bufs_count
      = decoder.bufs_count ∧
    (android_chiaki_video_decoder_set_surface K decoder env surface).1.timestamp_cur
      = decoder.timestamp_cur ∧
    (decoder.shutdown = true →
      (android_chiaki_video_decoder_set_surface K decoder env surface).1.shutdown = true) := by
  unfold android_chiaki_video_decoder_set_surface
  dsimp only
  split_ifs <;>
    simp [set_surface_error_input_thread, set_surface_error_codec,
      set_surface_error_surface]

/-- A call of `fini` leaves the queue and both handles alone.  Without a codec
it changes nothing; with one it raises the shutdown flag and, when an input
buffer was obtained, stamps one end-of-stream buffer with the current counter
and advances the counter by one. -/
theorem fini_frame (decoder : AndroidChiakiVideoDecoder) (codec_buf_index : Int) :
    (android_chiaki_video_decoder_fini decoder codec_buf_index).1.bufs = decoder.bufs ∧
    (android_chiaki_video_decoder_fini decoder codec_buf_index).1.bufs_sizes
      = decoder.bufs_sizes ∧
    (android_chiaki_video_decoder_fini decoder codec_buf_index).1.bufs_count
      = decoder.bufs_count ∧
    (android_chiaki_video_decoder_fini decoder codec_buf_index).1.codec = decoder.codec ∧
    (android_chiaki_video_decoder_fini decoder codec_buf_index).1.window = decoder.window ∧
    (decoder.shutdown = true →
      (android_chiaki_video_decoder_fini decoder codec_buf_index).1.shutdown = true) ∧
    ((decoder.codec = 0 ∧
        android_chiaki_video_decoder_fini decoder codec_buf_index
          = (decoder, [Event.chiaki_mutex_fini])) ∨
      (decoder.codec ≠ 0 ∧
        (android_chiaki_video_decoder_fini decoder codec_buf_index).1.shutdown = true ∧
        ((0 ≤ codec_buf_index ∧
          eos_timestamps (android_chiaki_video_decoder_fini decoder codec_buf_index).2
            = [decoder.timestamp_cur] ∧
          (android_chiaki_video_decoder_fini decoder codec_buf_index).1.timestamp_cur
            = (decoder.timestamp_cur + 1) % UINT64_MOD) ∨
         (codec_buf_index < 0 ∧
          eos_timestamps (android_chiaki_video_decoder_fini decoder codec_buf_index).2 = [] ∧
          (android_chiaki_video_decoder_fini decoder codec_buf_index).1.timestamp_cur
            = decoder.timestamp_cur)))) := by
  unfold android_chiaki_video_decoder_fini
  by_cases hc : decoder.codec = 0
  · simp [hc, eos_timestamps]
  · by_cases hi : 0 ≤ codec_buf_index
    · simp [hc, hi, eos_timestamps]
    · have hi' : codec_buf_index < 0 := by omega
      simp [hc, hi, hi', eos_timestamps]

theorem queue_congr (d d' : AndroidChiakiVideoDecoder) (h1 : d'.bufs = d.bufs)
    (h2 : d'.bufs_sizes = d.bufs_sizes) (h3 : d'.bufs_count = d.bufs_count) :
    queue d' = queue d := by
  unfold queue
  rw [h1, h2, h3]

theorem queue_length (d : AndroidChiakiVideoDecoder)
    (h : d.bufs_count ≤ ANDROID_CHIAKI_VIDEO_DECODER_FRAME_BUFFER_SIZE) :
    (queue d).length = d.bufs_count := by
  unfold ANDROID_CHIAKI_VIDEO_DECODER_FRAME_BUFFER_SIZE at h
  simp [queue, Arr4.toList]
  exact h

/-! ## Invariants of interleavings -/

/-- The locked section of the input thread, case by case, on a session whose
count is within the array. -/
theorem input_thread_locked_cases (decoder : AndroidChiakiVideoDecoder)
    (h4 : decoder.bufs_count ≤ ANDROID_CHIAKI_VIDEO_DECODER_FRAME_BUFFER_SIZE) :
    (decoder.shutdown = false ∧ decoder.bufs_count = 0 ∧
      input_thread_locked decoder = some InputStep.waiting) ∨
    (decoder.shutdown = true ∧ input_thread_locked decoder = some InputStep.exit) ∨
    (decoder.shutdown = false ∧ 1 ≤ decoder.bufs_count ∧
      ∃ d, input_thread_locked decoder =
          some (InputStep.dequeued d decoder.bufs.e0 decoder.bufs_sizes.e0
            decoder.timestamp_cur) ∧
        queue decoder = (decoder.bufs.e0, decoder.bufs_sizes.e0) :: queue d ∧
        d.bufs_count + 1 = decoder.bufs_count ∧
        d.timestamp_cur = (decoder.timestamp_cur + 1) % UINT64_MOD ∧
        d.codec = decoder.codec ∧ d.window = decoder.window ∧
        d.shutdown = decoder.shutdown) := by
  cases hs : decoder.shutdown with
  | true => exact Or.inr (Or.inl ⟨rfl, input_thread_locked_exit decoder hs⟩)
  | false =>
    by_cases h0 : decoder.bufs_count = 0
    · exact Or.inl ⟨rfl, h0, input_thread_locked_waiting decoder hs h0⟩
    · have h1 : 1 ≤ decoder.bufs_count := Nat.one_le_iff_ne_zero.mpr h0
      obtain ⟨d, hd⟩ := input_thread_locked_dequeue decoder hs h1 h4
      rw [hs] at hd
      exact Or.inr (Or.inr ⟨rfl, h1, d, hd⟩)

theorem step_submit_eq (K : NdkConsts) (r : Run) (buf : List Nat) (malloc_ok ok : Bool)
    (d : AndroidChiakiVideoDecoder)
    (e : android_chiaki_video_decoder_video_sample buf malloc_ok r.decoder = some (ok, d)) :
    step K r (Op.submit buf malloc_ok)
      = some { r with decoder := d, results := r.results ++ [ok] } := by
  simp only [step, e]

theorem step_feed_no_codec (K : NdkConsts) (r : Run) (hc : r.decoder.codec = 0) :
    step K r Op.feed = some r := by
  simp only [step, hc, if_true]

theorem step_feed_waiting (K : NdkConsts) (r : Run)
    (e : input_thread_locked r.decoder = some InputStep.waiting) :
    step K r Op.feed = some r := by
  simp only [step, e]
  split_ifs <;> rfl

theorem step_feed_exit (K : NdkConsts) (r : Run)
    (e : input_thread_locked r.decoder = some InputStep.exit) :
    step K r Op.feed = some r := by
  simp only [step, e]
  split_ifs <;> rfl

theorem step_feed_dequeued (K : NdkConsts) (r : Run) (d : AndroidChiakiVideoDecoder)
    (b : List Nat) (n t : Nat) (hc : r.decoder.codec ≠ 0)
    (e : input_thread_locked r.decoder = some (InputStep.dequeued d b n t)) :
    step K r Op.feed = some { r with decoder := d, fed := r.fed ++ [(b, n, t)] } := by
  simp only [step, e, hc, if_false]

theorem step_set_surface_eq (K : NdkConsts) (r : Run) (env : SurfaceEnv) (surface : Nat) :
    step K r (Op.set_surface env surface)
      = some { r with
          decoder := (android_chiaki_video_decoder_set_surface K r.decoder env surface).1
          trace := r.trace ++
            (android_chiaki_video_decoder_set_surface K r.decoder env surface).2 } := rfl

theorem step_fini_eq (K : NdkConsts) (r : Run) (codec_buf_index : Int) :
    step K r (Op.fini codec_buf_index)
      = some { r with
          decoder := (android_chiaki_video_decoder_fini r.decoder codec_buf_index).1
          eos := r.eos ++
            eos_timestamps (android_chiaki_video_decoder_fini r.decoder codec_buf_index).2
          trace := r.trace ++
            (android_chiaki_video_decoder_fini r.decoder codec_buf_index).2 } := rfl

theorem run_cons (K : NdkConsts) (r r1 : Run) (op : Op) (ops : List Op)
    (e : step K r op = some r1) : run K r (op :: ops) = run K r1 ops := by
  simp only [run, e]

/-- Every step from a session whose count is within the array is defined (no
access outside `bufs`) and keeps the count within the array. -/
theorem step_bounds (K : NdkConsts) (r : Run) (op : Op)
    (h : r.decoder.bufs_count ≤ ANDROID_CHIAKI_VIDEO_DECODER_FRAME_BUFFER_SIZE) :
    ∃ r', step K r op = some r' ∧
      r'.decoder.bufs_count ≤ ANDROID_CHIAKI_VIDEO_DECODER_FRAME_BUFFER_SIZE := by
  cases op with
  | submit buf malloc_ok =>
    obtain ⟨ok, d, e, hiff, hf, ht, _⟩ := video_sample_total buf malloc_ok r.decoder
    refine ⟨_, step_submit_eq K r buf malloc_ok ok d e, ?_⟩
    cases ok with
    | false => rw [hf rfl]; exact h
    | true =>
      have h1 := (hiff.mp rfl).1
      have h2 := (ht rfl).1
      show d.bufs_count ≤ _
      omega
  | feed =>
    by_cases hcodec : r.decoder.codec = 0
    · exact ⟨r, step_feed_no_codec K r hcodec, h⟩
    · rcases input_thread_locked_cases r.decoder h with
        ⟨_, _, e⟩ | ⟨_, e⟩ | ⟨_, _, d, e, _, hc, _⟩
      · exact ⟨r, step_feed_waiting K r e, h⟩
      · exact ⟨r, step_feed_exit K r e, h⟩
      · refine ⟨_, step_feed_dequeued K r d _ _ _ hcodec e, ?_⟩
        show d.bufs_count ≤ _
        omega
  | set_surface env surface =>
    refine ⟨_, step_set_surface_eq K r env surface, ?_⟩
    show (android_chiaki_video_decoder_set_surface K r.decoder env surface).1.bufs_count ≤ _
    rw [(set_surface_frame K r.decoder env surface).2.2.1]
    exact h
  | fini codec_buf_index =>
    refine ⟨_, step_fini_eq K r codec_buf_index, ?_⟩
    show (android_chiaki_video_decoder_fini r.decoder codec_buf_index).1.bufs_count ≤ _
    rw [(fini_frame r.decoder codec_buf_index).2.2.1]
    exact h

/-- Every interleaving from a session whose count is within the array is
defined and ends with the count within the array. -/
theorem run_bounds (K : NdkConsts) (ops : List Op) :
    ∀ r : Run, r.decoder.bufs_count ≤ ANDROID_CHIAKI_VIDEO_DECODER_FRAME_BUFFER_SIZE →
      ∃ r', run K r ops = some r' ∧
        r'.decoder.bufs_count ≤ ANDROID_CHIAKI_VIDEO_DECODER_FRAME_BUFFER_SIZE := by
  induction ops with
  | nil => intro r h; exact ⟨r, rfl, h⟩
  | cons op ops ih =>
    intro r h
    obtain ⟨r1, e1, h1⟩ := step_bounds K r op h
    obtain ⟨r2, e2, h2⟩ := ih r1 h1
    exact ⟨r2, by rw [run_cons K r r1 op ops e1, e2], h2⟩

theorem queue_empty (d : AndroidChiakiVideoDecoder) (h : d.bufs_count = 0) : queue d = [] := by
  simp [queue, h]

/-- First in, first out: while shutdown is not signalled, allocations succeed
and every `video_sample` call finds room, every call is accepted and the units
dequeued so far followed by the units still queued are the units submitted. -/
theorem run_fifo (K : NdkConsts) (ops : List Op) :
    ∀ r : Run, r.decoder.shutdown = false →
      r.decoder.bufs_count ≤ ANDROID_CHIAKI_VIDEO_DECODER_FRAME_BUFFER_SIZE →
      only_submit_and_feed ops = true → submits_find_room K r ops = true →
      ∃ r', run K r ops = some r' ∧
        r'.results = r.results ++ List.replicate (submitted ops).length true ∧
        units r'.fed ++ queue r'.decoder
          = units r.fed ++ queue r.decoder ++ submitted ops ∧
        r'.decoder.shutdown = false ∧
        r'.decoder.bufs_count ≤ ANDROID_CHIAKI_VIDEO_DECODER_FRAME_BUFFER_SIZE := by
  induction ops with
  | nil =>
    intro r hs h4 _ _
    exact ⟨r, rfl, by simp [submitted], by simp [submitted], hs, h4⟩
  | cons op ops ih =>
    intro r hs h4 ho hr
    cases op with
    | submit buf malloc_ok =>
      simp only [only_submit_and_feed, Bool.and_eq_true] at ho
      obtain ⟨hm, ho⟩ := ho
      subst hm
      simp only [submits_find_room, Bool.and_eq_true, decide_eq_true_eq] at hr
      obtain ⟨hlt, hr⟩ := hr
      obtain ⟨d, e, _, _, hc, hq, _, _, _, hsd⟩ := video_sample_accept buf r.decoder hlt
      have es := step_submit_eq K r buf true true d e
      rw [es] at hr
      simp only at hr
      obtain ⟨r', e', hres, hfifo, hs', h4'⟩ :=
        ih { r with decoder := d, results := r.results ++ [true] }
          (by rw [← hs]; exact hsd) (by show d.bufs_count ≤ _; omega) ho hr
      refine ⟨r', by rw [run_cons K r _ _ ops es, e'], ?_, ?_, hs', h4'⟩
      · rw [hres]
        simp [submitted, List.replicate_succ]
      · rw [hfifo]
        simp [submitted, hq]
    | feed =>
      simp only [only_submit_and_feed] at ho
      simp only [submits_find_room, Bool.true_and] at hr
      have hidle : step K r Op.feed = some r →
          ∃ r', run K r (Op.feed :: ops) = some r' ∧
            r'.results = r.results ++ List.replicate (submitted (Op.feed :: ops)).length true ∧
            units r'.fed ++ queue r'.decoder
              = units r.fed ++ queue r.decoder ++ submitted (Op.feed :: ops) ∧
            r'.decoder.shutdown = false ∧
            r'.decoder.bufs_count ≤ ANDROID_CHIAKI_VIDEO_DECODER_FRAME_BUFFER_SIZE := by
        intro es
        rw [es] at hr
        obtain ⟨r', e', hres, hfifo, hs', h4'⟩ := ih r hs h4 ho hr
        exact ⟨r', by rw [run_cons K r _ _ ops es, e'], by simpa [submitted] using hres,
          by simpa [submitted] using hfifo, hs', h4'⟩
      by_cases hcodec : r.decoder.codec = 0
      · exact hidle (step_feed_no_codec K r hcodec)
      rcases input_thread_locked_cases r.decoder h4 with
        ⟨_, _, e⟩ | ⟨hst, _⟩ | ⟨_, _, d, e, hq, hc, _, _, _, hsd⟩
      · exact hidle (step_feed_waiting K r e)
      · rw [hs] at hst
        exact absurd hst (by decide)
      · have es := step_feed_dequeued K r d _ _ _ hcodec e
        rw [es] at hr
        simp only at hr
        obtain ⟨r', e', hres, hfifo, hs', h4'⟩ :=
          ih { r with decoder := d,
                      fed := r.fed ++ [(r.decoder.bufs.e0, r.decoder.bufs_sizes.e0,
                        r.decoder.timestamp_cur)] }
            (by rw [← hs]; exact hsd) (by show d.bufs_count ≤ _; omega) ho hr
        refine ⟨r', by rw [run_cons K r _ _ ops es, e'], by simpa [submitted] using hres, ?_,
          hs', h4'⟩
        rw [hfifo]
        simp [submitted, units, hq]
    | set_surface env surface => simp [only_submit_and_feed] at ho
    | fini codec_buf_index => simp [only_submit_and_feed] at ho

theorem range_map_succ (n : Nat) :
    (List.range (n + 1)).map (fun k => k % UINT64_MOD)
      = (List.range n).map (fun k => k % UINT64_MOD) ++ [n % UINT64_MOD] := by
  rw [List.range_succ, List.map_append]
  rfl

theorem succ_mod (n : Nat) : (n % UINT64_MOD + 1) % UINT64_MOD = (n + 1) % UINT64_MOD := by
  unfold UINT64_MOD
  omega

/-- One step keeps `StampInv`. -/
theorem step_stamps (K : NdkConsts) (r r' : Run) (op : Op)
    (h4 : r.decoder.bufs_count ≤ ANDROID_CHIAKI_VIDEO_DECODER_FRAME_BUFFER_SIZE)
    (hi : StampInv r) (e : step K r op = some r') : StampInv r' := by
  obtain ⟨ht, hl, hsd⟩ := hi
  cases op with
  | submit buf malloc_ok =>
    obtain ⟨ok, d, e1, _, _, _, _, _, htd, hsd'⟩ :=
      video_sample_total buf malloc_ok r.decoder
    rw [step_submit_eq K r buf malloc_ok ok d e1] at e
    cases e
    exact ⟨by rw [htd]; exact ht, hl, fun h => by rw [hsd']; exact hsd h⟩
  | feed =>
    by_cases hcodec : r.decoder.codec = 0
    · rw [step_feed_no_codec K r hcodec] at e
      cases e
      exact ⟨ht, hl, hsd⟩
    rcases input_thread_locked_cases r.decoder h4 with
      ⟨_, _, e1⟩ | ⟨_, e1⟩ | ⟨hs, _, d, e1, _, _, htd, _, _, hsd'⟩
    · rw [step_feed_waiting K r e1] at e
      cases e
      exact ⟨ht, hl, hsd⟩
    · rw [step_feed_exit K r e1] at e
      cases e
      exact ⟨ht, hl, hsd⟩
    · rw [step_feed_dequeued K r d _ _ _ hcodec e1] at e
      cases e
      have he : r.eos = [] := by
        by_contra hne
        have := hsd hne
        rw [hs] at this
        exact absurd this (by decide)
      rw [he] at hl ht
      simp only [List.length_nil, Nat.add_zero, List.append_nil] at hl ht
      refine ⟨?_, ?_, ?_⟩
      · show d.timestamp_cur = _
        rw [htd, ht, he]
        simp only [List.length_append, List.length_singleton, List.length_nil, Nat.add_zero]
        exact succ_mod _
      · show stamps (r.fed ++ [_]) ++ r.eos = _
        rw [he]
        simp only [List.length_append, List.length_singleton, List.length_nil, Nat.add_zero,
          List.append_nil]
        rw [range_map_succ, ← hl, ht]
        simp [stamps]
      · intro hne
        exact absurd he hne
  | set_surface env surface =>
    rw [step_set_surface_eq] at e
    cases e
    obtain ⟨_, _, _, htd, hmono⟩ := set_surface_frame K r.decoder env surface
    exact ⟨by show (android_chiaki_video_decoder_set_surface K r.decoder env surface).1.timestamp_cur = _
              rw [htd]; exact ht, hl, fun h => hmono (hsd h)⟩
  | fini codec_buf_index =>
    rw [step_fini_eq] at e
    cases e
    obtain ⟨_, _, _, _, _, hmono, hcase⟩ := fini_frame r.decoder codec_buf_index
    rcases hcase with ⟨_, heq⟩ | ⟨_, hsh, ⟨_, hts, htd⟩ | ⟨_, hts, htd⟩⟩
    · simp only [heq, eos_timestamps, List.append_nil]
      exact ⟨ht, hl, hsd⟩
    · refine ⟨?_, ?_, fun _ => hsh⟩
      · show (android_chiaki_video_decoder_fini r.decoder codec_buf_index).1.timestamp_cur = _
        rw [htd, hts, ht]
        simp only [List.length_append, List.length_singleton]
        rw [succ_mod, Nat.add_assoc]
      · show stamps r.fed ++ (r.eos ++ _) = _
        rw [hts]
        simp only [List.length_append, List.length_singleton]
        rw [← Nat.add_assoc, range_map_succ, ← hl, ht, List.append_assoc]
    · refine ⟨?_, ?_, fun _ => hsh⟩
      · show (android_chiaki_video_decoder_fini r.decoder codec_buf_index).1.timestamp_cur = _
        rw [htd, hts, ht]
        simp
      · show stamps r.fed ++ (r.eos ++ _) = _
        rw [hts]
        simpa using hl

/-- Every interleaving from a session whose count is within the array keeps
`StampInv`. -/
theorem run_stamps (K : NdkConsts) (ops : List Op) :
    ∀ r : Run, r.decoder.bufs_count ≤ ANDROID_CHIAKI_VIDEO_DECODER_FRAME_BUFFER_SIZE →
      StampInv r → ∃ r', run K r ops = some r' ∧ StampInv r' := by
  induction ops with
  | nil => intro r _ hi; exact ⟨r, rfl, hi⟩
  | cons op ops ih =>
    intro r h4 hi
    obtain ⟨r1, e1, h1⟩ := step_bounds K r op h4
    obtain ⟨r2, e2, h2⟩ := ih r1 h1 (step_stamps K r r1 op h4 hi e1)
    exact ⟨r2, by rw [run_cons K r r1 op ops e1, e2], h2⟩

/-- The session `init` leaves behind, whatever `chiaki_mutex_init` and
`chiaki_cond_init` answered. -/
theorem init_state (K : NdkConsts) (d0 : AndroidChiakiVideoDecoder) (w h : Int) (c : Nat)
    (me ce : Int) :
    (android_chiaki_video_decoder_init K d0 w h c me ce).1 =
      { d0 with codec := 0, timestamp_cur := 0, target_width := w, target_height := h,
                target_codec := c, shutdown := false, bufs_count := 0 } := by
  unfold android_chiaki_video_decoder_init
  split_ifs <;> rfl

/-- A `set_surface` call on a session without codec in which everything
succeeds installs the window and the codec and changes nothing else. -/
theorem set_surface_success (K : NdkConsts) (decoder : AndroidChiakiVideoDecoder)
    (env : SurfaceEnv) (surface : Nat) (hc : decoder.codec = 0) (h1 : env.codec ≠ 0)
    (h2 : env.configure = K.AMEDIA_OK) (h3 : env.start = K.AMEDIA_OK)
    (h4 : env.input_thread = K.CHIAKI_ERR_SUCCESS)
    (h5 : env.output_thread = K.CHIAKI_ERR_SUCCESS) :
    (android_chiaki_video_decoder_set_surface K decoder env surface).1
      = { decoder with window := env.window, codec := env.codec } ∧
    Event.chiaki_thread_create_input
      ∈ (android_chiaki_video_decoder_set_surface K decoder env surface).2 ∧
    Event.chiaki_thread_create_output
      ∈ (android_chiaki_video_decoder_set_surface K decoder env surface).2 := by
  unfold android_chiaki_video_decoder_set_surface
  simp [hc, h1, h2, h3, h4, h5]

/-- On a running session with an empty queue: four accepted calls fill the
queue, a fifth is turned away, the input thread dequeues the first unit, and
a further call is accepted. -/
theorem fill_then_drain (K : NdkConsts) (r0 : Run)
    (h0 : r0.decoder.bufs_count = 0) (hs : r0.decoder.shutdown = false)
    (hcodec : r0.decoder.codec ≠ 0) (b1 b2 b3 b4 b5 b6 : List Nat) :
    ∃ r, run K r0
        [Op.submit b1 true, Op.submit b2 true, Op.submit b3 true, Op.submit b4 true,
         Op.submit b5 true, Op.feed, Op.submit b6 true] = some r ∧
      r.results = r0.results ++ [true, true, true, true, false, true] ∧
      units r.fed = units r0.fed ++ [(b1, b1.length)] ∧
      r.decoder.bufs_count = ANDROID_CHIAKI_VIDEO_DECODER_FRAME_BUFFER_SIZE := by
  have hsz : ANDROID_CHIAKI_VIDEO_DECODER_FRAME_BUFFER_SIZE = 4 := rfl
  obtain ⟨d1, e1, _, _, c1, q1, k1, _, _, s1⟩ :=
    video_sample_accept b1 r0.decoder (by rw [h0, hsz]; decide)
  obtain ⟨d2, e2, _, _, c2, q2, k2, _, _, s2⟩ :=
    video_sample_accept b2 d1 (by rw [c1, h0, hsz]; decide)
  obtain ⟨d3, e3, _, _, c3, q3, k3, _, _, s3⟩ :=
    video_sample_accept b3 d2 (by rw [c2, c1, h0, hsz]; decide)
  obtain ⟨d4, e4, _, _, c4, q4, k4, _, _, s4⟩ :=
    video_sample_accept b4 d3 (by rw [c3, c2, c1, h0, hsz]; decide)
  have e5 := video_sample_full b5 true d4 (by rw [c4, c3, c2, c1, h0, hsz])
  obtain ⟨d6, e6, q6, c6, _, _, _, _⟩ :=
    input_thread_locked_dequeue d4 (by rw [s4, s3, s2, s1, hs])
      (by rw [c4, c3, c2, c1, h0]; decide) (by rw [c4, c3, c2, c1, h0, hsz])
  obtain ⟨d7, e7, _, _, c7, _⟩ :=
    video_sample_accept b6 d6 (by rw [hsz]; omega)
  have hhead : (d4.bufs.e0, d4.bufs_sizes.e0) = (b1, b1.length) := by
    rw [q4, q3, q2, q1, queue_empty r0.decoder h0] at q6
    simp only [List.nil_append, List.cons_append] at q6
    exact (List.cons.inj q6).1.symm
  have hk4 : d4.codec ≠ 0 := by rw [k4, k3, k2, k1]; exact hcodec
  have t1 : step K r0 (Op.submit b1 true)
      = some ⟨d1, r0.results ++ [true], r0.fed, r0.eos, r0.trace⟩ :=
    step_submit_eq K r0 b1 true true d1 e1
  have t2 : step K ⟨d1, r0.results ++ [true], r0.fed, r0.eos, r0.trace⟩ (Op.submit b2 true)
      = some ⟨d2, r0.results ++ [true] ++ [true], r0.fed, r0.eos, r0.trace⟩ :=
    step_submit_eq K ⟨d1, r0.results ++ [true], r0.fed, r0.eos, r0.trace⟩ b2 true true d2 e2
  have t3 : step K ⟨d2, r0.results ++ [true] ++ [true], r0.fed, r0.eos, r0.trace⟩
        (Op.submit b3 true)
      = some ⟨d3, r0.results ++ [true] ++ [true] ++ [true], r0.fed, r0.eos, r0.trace⟩ :=
    step_submit_eq K ⟨d2, r0.results ++ [true] ++ [true], r0.fed, r0.eos, r0.trace⟩ b3
      true true d3 e3
  have t4 : step K ⟨d3, r0.results ++ [true] ++ [true] ++ [true], r0.fed, r0.eos, r0.trace⟩
        (Op.submit b4 true)
      = some ⟨d4, r0.results ++ [true] ++ [true] ++ [true] ++ [true], r0.fed, r0.eos,
          r0.trace⟩ :=
    step_submit_eq K ⟨d3, r0.results ++ [true] ++ [true] ++ [true], r0.fed, r0.eos,
      r0.trace⟩ b4 true true d4 e4
  have t5 : step K ⟨d4, r0.results ++ [true] ++ [true] ++ [true] ++ [true], r0.fed, r0.eos,
          r0.trace⟩ (Op.submit b5 true)
      = some ⟨d4, r0.results ++ [true] ++ [true] ++ [true] ++ [true] ++ [false], r0.fed,
          r0.eos, r0.trace⟩ :=
    step_submit_eq K ⟨d4, r0.results ++ [true] ++ [true] ++ [true] ++ [true], r0.fed,
      r0.eos, r0.trace⟩ b5 true false d4 e5
  have t6 : step K ⟨d4, r0.results ++ [true] ++ [true] ++ [true] ++ [true] ++ [false],
          r0.fed, r0.eos, r0.trace⟩ Op.feed
      = some ⟨d6, r0.results ++ [true] ++ [true] ++ [true] ++ [true] ++ [false],
          r0.fed ++ [(d4.bufs.e0, d4.bufs_sizes.e0, d4.timestamp_cur)], r0.eos, r0.trace⟩ :=
    step_feed_dequeued K ⟨d4, r0.results ++ [true] ++ [true] ++ [true] ++ [true] ++ [false],
      r0.fed, r0.eos, r0.trace⟩ d6 _ _ _ hk4 e6
  have t7 : step K ⟨d6, r0.results ++ [true] ++ [true] ++ [true] ++ [true] ++ [false],
          r0.fed ++ [(d4.bufs.e0, d4.bufs_sizes.e0, d4.timestamp_cur)], r0.eos, r0.trace⟩
        (Op.submit b6 true)
      = some ⟨d7, r0.results ++ [true] ++ [true] ++ [true] ++ [true] ++ [false] ++ [true],
          r0.fed ++ [(d4.bufs.e0, d4.bufs_sizes.e0, d4.timestamp_cur)], r0.eos, r0.trace⟩ :=
    step_submit_eq K ⟨d6, r0.results ++ [true] ++ [true] ++ [true] ++ [true] ++ [false],
      r0.fed ++ [(d4.bufs.e0, d4.bufs_sizes.e0, d4.timestamp_cur)], r0.eos, r0.trace⟩ b6
      true true d7 e7
  refine ⟨⟨d7, r0.results ++ [true] ++ [true] ++ [true] ++ [true] ++ [false] ++ [true],
    r0.fed ++ [(d4.bufs.e0, d4.bufs_sizes.e0, d4.timestamp_cur)], r0.eos, r0.trace⟩,
    ?_, ?_, ?_, ?_⟩
  · rw [run_cons K _ _ _ _ t1, run_cons K _ _ _ _ t2, run_cons K _ _ _ _ t3,
      run_cons K _ _ _ _ t4, run_cons K _ _ _ _ t5, run_cons K _ _ _ _ t6,
      run_cons K _ _ _ _ t7]
    rfl
  · simp
  · show units (r0.fed ++ [_]) = _
    simp only [units, List.map_append, List.map_cons, List.map_nil]
    rw [hhead]
  · show d7.bufs_count = _
    rw [hsz]
    omega

/-! ## The queue claims -/

/-- C1. A `video_sample` call on a session whose queue holds
`ANDROID_CHIAKI_VIDEO_DECODER_FRAME_BUFFER_SIZE = 4` units returns `false` and
leaves the whole session (cells, sizes, count, timestamp counter, shutdown
flag) as it was, whatever the payload.  With fewer than four units and a
successful allocation the call returns `true` and appends the unit.  On a
freshly initialised session whose surface has been set (so that the input
thread runs), four calls are accepted, the fifth is rejected, and after the
input thread has dequeued one unit, the first one submitted, the next call is
accepted. -/
theorem C1_full_queue_rejects (K : NdkConsts) (decoder : AndroidChiakiVideoDecoder)
    (buf : List Nat) (malloc_ok : Bool) :
    (decoder.bufs_count = ANDROID_CHIAKI_VIDEO_DECODER_FRAME_BUFFER_SIZE →
      android_chiaki_video_decoder_video_sample buf malloc_ok decoder
        = some (false, decoder)) ∧
    (decoder.bufs_count < ANDROID_CHIAKI_VIDEO_DECODER_FRAME_BUFFER_SIZE →
      ∃ d, android_chiaki_video_decoder_video_sample buf true decoder = some (true, d) ∧
        d.bufs_count = decoder.bufs_count + 1 ∧
        queue d = queue decoder ++ [(buf, buf.length)]) ∧
    (∀ (d0 : AndroidChiakiVideoDecoder) (w h : Int) (c : Nat) (me ce : Int)
        (env : SurfaceEnv) (surface : Nat) (b1 b2 b3 b4 b5 b6 : List Nat),
      env.codec ≠ 0 → env.configure = K.AMEDIA_OK → env.start = K.AMEDIA_OK →
      env.input_thread = K.CHIAKI_ERR_SUCCESS → env.output_thread = K.CHIAKI_ERR_SUCCESS →
      ∃ r, run K (Run.start (android_chiaki_video_decoder_init K d0 w h c me ce).1)
          [Op.set_surface env surface,
           Op.submit b1 true, Op.submit b2 true, Op.submit b3 true, Op.submit b4 true,
           Op.submit b5 true, Op.feed, Op.submit b6 true] = some r ∧
        r.results = [true, true, true, true, false, true] ∧
        units r.fed = [(b1, b1.length)]) := by
  refine ⟨fun h => video_sample_full buf malloc_ok decoder (Nat.le_of_eq h.symm), ?_, ?_⟩
  · intro h
    obtain ⟨d, e, _, _, hc, hq, _⟩ := video_sample_accept buf decoder h
    exact ⟨d, e, hc, hq⟩
  · intro d0 w h c me ce env surface b1 b2 b3 b4 b5 b6 h1 h2 h3 h4 h5
    obtain ⟨hd, _, _⟩ :=
      set_surface_success K (android_chiaki_video_decoder_init K d0 w h c me ce).1 env
        surface (by rw [init_state]) h1 h2 h3 h4 h5
    have est := step_set_surface_eq K
      (Run.start (android_chiaki_video_decoder_init K d0 w h c me ce).1) env surface
    have hcount : (android_chiaki_video_decoder_set_surface K
        (android_chiaki_video_decoder_init K d0 w h c me ce).1 env surface).1.bufs_count
        = 0 := by
      rw [hd, init_state]
    have hshut : (android_chiaki_video_decoder_set_surface K
        (android_chiaki_video_decoder_init K d0 w h c me ce).1 env surface).1.shutdown
        = false := by
      rw [hd, init_state]
    have hcodec : (android_chiaki_video_decoder_set_surface K
        (android_chiaki_video_decoder_init K d0 w h c me ce).1 env surface).1.codec
        ≠ 0 := by
      rw [hd]
      exact h1
    obtain ⟨r, e, hres, hfed, _⟩ :=
      fill_then_drain K
        { Run.start (android_chiaki_video_decoder_init K d0 w h c me ce).1 with
          decoder := (android_chiaki_video_decoder_set_surface K
            (android_chiaki_video_decoder_init K d0 w h c me ce).1 env surface).1
          trace := (Run.start (android_chiaki_video_decoder_init K d0 w h c me ce).1).trace
            ++ (android_chiaki_video_decoder_set_surface K
              (android_chiaki_video_decoder_init K d0 w h c me ce).1 env surface).2 }
        hcount hshut hcodec b1 b2 b3 b4 b5 b6
    exact ⟨r, (run_cons K _ _ _ _ est).trans e, by simpa [Run.start] using hres,
      by simpa [Run.start, units] using hfed⟩

/-- C1 at a concrete full queue, where the call is rejected and nothing
changes, and on the session `init(1280, 720, H264)` after a successful
`set_surface`. -/
theorem C1_full_queue_rejects_witness :
    (fullDecoder.bufs_count = ANDROID_CHIAKI_VIDEO_DECODER_FRAME_BUFFER_SIZE ∧
      android_chiaki_video_decoder_video_sample [8, 9] true fullDecoder
        = some (false, fullDecoder)) ∧
    (∃ r, run sampleConsts
        (Run.start (android_chiaki_video_decoder_init sampleConsts zeroDecoder
          1280 720 0 0 0).1)
        [Op.set_surface surfaceSucceeds 3,
         Op.submit [1] true, Op.submit [2, 2] true, Op.submit [3] true, Op.submit [4] true,
         Op.submit [5] true, Op.feed, Op.submit [6] true] = some r ∧
      r.results = [true, true, true, true, false, true] ∧
      units r.fed = [([1], [1].length)]) :=
  ⟨⟨by decide, (C1_full_queue_rejects sampleConsts fullDecoder [8, 9] true).1 (by decide)⟩,
    (C1_full_queue_rejects sampleConsts fullDecoder [8, 9] true).2.2 zeroDecoder 1280 720 0
      0 0 surfaceSucceeds 3 [1] [2, 2] [3] [4] [5] [6] (by decide) (by decide) (by decide)
      (by decide) (by decide)⟩

/-- C2. In an interleaving of `video_sample` calls and passes of the input
thread that starts with an empty queue and shutdown not signalled, in which
every allocation succeeds and every call finds fewer than four units queued:
every call returns `true`, the units dequeued followed by the units still
queued are exactly the units submitted, in submission order and byte for byte
with their lengths; so the `k`-th unit dequeued is the `k`-th unit submitted
and the queue holds the remaining ones. -/
theorem C2_fifo_no_drop (K : NdkConsts) (d : AndroidChiakiVideoDecoder) (ops : List Op)
    (h0 : d.bufs_count = 0) (hs : d.shutdown = false)
    (ho : only_submit_and_feed ops = true)
    (hr : submits_find_room K (Run.start d) ops = true) :
    ∃ r, run K (Run.start d) ops = some r ∧
      r.results = List.replicate (submitted ops).length true ∧
      units r.fed ++ queue r.decoder = submitted ops ∧
      (∀ k, k < r.fed.length → (units r.fed)[k]? = (submitted ops)[k]?) ∧
      queue r.decoder = (submitted ops).drop r.fed.length := by
  obtain ⟨r, e, hres, hfifo, _, _⟩ :=
    run_fifo K ops (Run.start d) hs (by show d.bufs_count ≤ _; rw [h0]; exact Nat.zero_le _)
      ho hr
  have hq : queue (Run.start d).decoder = [] := queue_empty d h0
  have hfifo' : units r.fed ++ queue r.decoder = submitted ops := by
    rw [hfifo, hq]
    simp [Run.start, units]
  have hlen : (units r.fed).length = r.fed.length := by simp [units]
  refine ⟨r, e, by simpa [Run.start] using hres, hfifo', ?_, ?_⟩
  · intro k hk
    rw [← hfifo', List.getElem?_append_left (by rw [hlen]; exact hk)]
  · rw [← hfifo', ← hlen, List.drop_left]

/-- C2 on a running session with an empty queue: two units go in, one comes
out, a third goes in, and the second comes out; the third is still queued. -/
theorem C2_fifo_no_drop_witness :
    (∃ r, run sampleConsts (Run.start runningDecoder)
        [Op.submit [1, 2] true, Op.submit [3] true, Op.feed, Op.submit [] true, Op.feed]
        = some r ∧
      r.results = List.replicate
        (submitted [Op.submit [1, 2] true, Op.submit [3] true, Op.feed, Op.submit [] true,
          Op.feed]).length true ∧
      units r.fed ++ queue r.decoder
        = submitted [Op.submit [1, 2] true, Op.submit [3] true, Op.feed, Op.submit [] true,
            Op.feed] ∧
      (∀ k, k < r.fed.length → (units r.fed)[k]?
        = (submitted [Op.submit [1, 2] true, Op.submit [3] true, Op.feed, Op.submit [] true,
            Op.feed])[k]?) ∧
      queue r.decoder
        = (submitted [Op.submit [1, 2] true, Op.submit [3] true, Op.feed, Op.submit [] true,
            Op.feed]).drop r.fed.length) ∧
    (run sampleConsts (Run.start runningDecoder)
        [Op.submit [1, 2] true, Op.submit [3] true, Op.feed, Op.submit [] true,
          Op.feed]).map (fun r => (units r.fed, queue r.decoder))
      = some ([([1, 2], 2), ([3], 1)], [([], 0)]) :=
  ⟨C2_fifo_no_drop sampleConsts runningDecoder
      [Op.submit [1, 2] true, Op.submit [3] true, Op.feed, Op.submit [] true, Op.feed]
      (by decide) (by decide) (by decide) (by decide),
    by decide⟩

/-- C4. In every state reached from `init` by any sequence of `video_sample`
calls, passes of the input thread, `set_surface` calls and `fini` calls, no
step has accessed `bufs` or `bufs_sizes` out of bounds and `bufs_count ≤ 4`.
In such a state a `video_sample` call is defined, and when it stores the unit
it does so at index `bufs_count < 4`; a pass of the input thread is defined,
and when it dequeues then `bufs_count ≥ 1`, the unsigned `bufs_count - 1` is
the true difference, and the shift stays below index 4. -/
theorem C4_queue_bound (K : NdkConsts) (d0 : AndroidChiakiVideoDecoder) (w h : Int)
    (c : Nat) (me ce : Int) (ops : List Op) :
    ∃ r, run K (Run.start (android_chiaki_video_decoder_init K d0 w h c me ce).1) ops
        = some r ∧
      r.decoder.bufs_count ≤ ANDROID_CHIAKI_VIDEO_DECODER_FRAME_BUFFER_SIZE ∧
      (∀ buf malloc_ok, ∃ ok d,
        android_chiaki_video_decoder_video_sample buf malloc_ok r.decoder = some (ok, d) ∧
        (ok = true →
          r.decoder.bufs_count < ANDROID_CHIAKI_VIDEO_DECODER_FRAME_BUFFER_SIZE ∧
          d.bufs.get? r.decoder.bufs_count = some buf ∧
          d.bufs_sizes.get? r.decoder.bufs_count = some buf.length)) ∧
      (∃ st, input_thread_locked r.decoder = some st ∧
        ∀ d b n t, st = InputStep.dequeued d b n t →
          1 ≤ r.decoder.bufs_count ∧
          (r.decoder.bufs_count + UINT64_MOD - 1) % UINT64_MOD + 1 = r.decoder.bufs_count ∧
          (r.decoder.bufs_count + UINT64_MOD - 1) % UINT64_MOD
            < ANDROID_CHIAKI_VIDEO_DECODER_FRAME_BUFFER_SIZE ∧
          d.bufs_count + 1 = r.decoder.bufs_count) := by
  obtain ⟨r, e, h4⟩ :=
    run_bounds K ops (Run.start (android_chiaki_video_decoder_init K d0 w h c me ce).1)
      (by rw [init_state]; exact Nat.zero_le _)
  refine ⟨r, e, h4, ?_, ?_⟩
  · intro buf malloc_ok
    obtain ⟨ok, d, e1, hiff, _⟩ := video_sample_total buf malloc_ok r.decoder
    refine ⟨ok, d, e1, fun hok => ?_⟩
    obtain ⟨hlt, hm⟩ := hiff.mp hok
    subst hm
    subst hok
    obtain ⟨d', e2, hb, hsz, _⟩ := video_sample_accept buf r.decoder hlt
    rw [e1] at e2
    cases e2
    exact ⟨hlt, hb, hsz⟩
  · rcases input_thread_locked_cases r.decoder h4 with
      ⟨_, _, e1⟩ | ⟨_, e1⟩ | ⟨_, h1, d, e1, _, hc, _⟩
    · exact ⟨_, e1, fun _ _ _ _ hst => by cases hst⟩
    · exact ⟨_, e1, fun _ _ _ _ hst => by cases hst⟩
    · refine ⟨_, e1, fun d' b n t hst => ?_⟩
      cases hst
      have hw := wrap_pred r.decoder.bufs_count h1 (by
        unfold UINT64_MOD
        unfold ANDROID_CHIAKI_VIDEO_DECODER_FRAME_BUFFER_SIZE at h4
        omega)
      unfold ANDROID_CHIAKI_VIDEO_DECODER_FRAME_BUFFER_SIZE at h4 ⊢
      rw [hw]
      omega

/-- C4 on a whole session: every step is defined, the count stays within the
array, and the session ends with an empty queue. -/
theorem C4_queue_bound_witness :
    (∃ r, run sampleConsts
        (Run.start (android_chiaki_video_decoder_init sampleConsts zeroDecoder
          1280 720 0 0 0).1) sessionOps = some r ∧
      r.decoder.bufs_count ≤ ANDROID_CHIAKI_VIDEO_DECODER_FRAME_BUFFER_SIZE) ∧
    (run sampleConsts
        (Run.start (android_chiaki_video_decoder_init sampleConsts zeroDecoder
          1280 720 0 0 0).1) sessionOps).map
      (fun r => (r.decoder.bufs_count, r.results, units r.fed))
      = some (0, [true, true], [([1, 2, 3], 3), ([4], 1)]) :=
  ⟨(C4_queue_bound sampleConsts zeroDecoder 1280 720 0 0 0 sessionOps).imp
      (fun _ h => ⟨h.1, h.2.1⟩),
    by decide⟩

/-! ## The timestamp claim -/

/-- After `n` rounds of submit-then-dequeue on a running session with an empty
queue, `n` more units have been dequeued. -/
theorem run_rounds (K : NdkConsts) (n : Nat) :
    ∀ r : Run, r.decoder.shutdown = false → r.decoder.bufs_count = 0 →
      r.decoder.codec ≠ 0 →
      ∃ r', run K r (submit_feed_rounds n) = some r' ∧
        r'.fed.length = r.fed.length + n ∧ r'.decoder.codec = r.decoder.codec := by
  induction n with
  | zero => intro r _ _ _; exact ⟨r, rfl, rfl, rfl⟩
  | succ n ih =>
    intro r hs h0 hk
    obtain ⟨d1, e1, _, _, c1, _, k1, _, _, s1⟩ :=
      video_sample_accept [0] r.decoder (by rw [h0]; decide)
    have hk1 : d1.codec ≠ 0 := by rw [k1]; exact hk
    obtain ⟨d2, e2, _, c2, _, k2, _, s2⟩ :=
      input_thread_locked_dequeue d1 (by rw [s1, hs]) (by rw [c1, h0])
        (by rw [c1, h0]; decide)
    obtain ⟨r', e', hlen, hkept⟩ :=
      ih ⟨d2, r.results ++ [true],
          r.fed ++ [(d1.bufs.e0, d1.bufs_sizes.e0, d1.timestamp_cur)], r.eos, r.trace⟩
        (by show d2.shutdown = false; rw [s2, s1, hs])
        (by show d2.bufs_count = 0; omega)
        (by show d2.codec ≠ 0; rw [k2]; exact hk1)
    refine ⟨r', ?_, ?_, by rw [hkept]; show d2.codec = _; rw [k2, k1]⟩
    · exact (run_cons K _ _ _ _ (step_submit_eq K r [0] true true d1 e1)).trans <|
        (run_cons K _ _ _ _
          (step_feed_dequeued K ⟨d1, r.results ++ [true], r.fed, r.eos, r.trace⟩ d2 _ _ _
            hk1 e2)).trans e'
    · rw [hlen]
      simp only [List.length_append, List.length_singleton]
      omega

/-- What `StampInv` says about the individual timestamps. -/
theorem stamps_of_inv (r : Run) (hi : StampInv r) :
    (∀ k, k < r.fed.length → (stamps r.fed)[k]? = some (k % UINT64_MOD)) ∧
    (∀ j, j < r.eos.length → r.eos[j]? = some ((r.fed.length + j) % UINT64_MOD)) ∧
    (r.fed.length + r.eos.length ≤ UINT64_MOD → (stamps r.fed ++ r.eos).Nodup) := by
  obtain ⟨_, hl, _⟩ := hi
  have hlen : (stamps r.fed).length = r.fed.length := by simp [stamps]
  refine ⟨?_, ?_, ?_⟩
  · intro k hk
    have h1 : (stamps r.fed ++ r.eos)[k]? = (stamps r.fed)[k]? :=
      List.getElem?_append_left (by rw [hlen]; exact hk)
    rw [← h1, hl, List.getElem?_map, List.getElem?_range (by omega)]
    rfl
  · intro j hj
    have h1 : (stamps r.fed ++ r.eos)[r.fed.length + j]? = r.eos[j]? := by
      rw [List.getElem?_append_right (by rw [hlen]; omega), hlen, Nat.add_sub_cancel_left]
    rw [← h1, hl, List.getElem?_map, List.getElem?_range (by omega)]
    rfl
  · intro hn
    rw [hl]
    refine List.Nodup.map_on ?_ (List.nodup_range _)
    intro x hx y hy hxy
    rw [List.mem_range] at hx hy
    rw [Nat.mod_eq_of_lt (by omega), Nat.mod_eq_of_lt (by omega)] at hxy
    exact hxy

theorem stamp_inv_start (d : AndroidChiakiVideoDecoder) (h : d.timestamp_cur = 0) :
    StampInv (Run.start d) := by
  refine ⟨?_, ?_, ?_⟩
  · show d.timestamp_cur = _
    rw [h]
    rfl
  · rfl
  · intro hne
    exact absurd rfl hne

/-- C3, as the code has it.  Starting from `init`, in every interleaving of
`video_sample` calls, passes of the input thread, `set_surface` calls and
`fini` calls, whatever the payloads: the `k`-th unit dequeued carries timestamp
`k` modulo `2 ^ 64`, consecutive units differ by one (modulo `2 ^ 64`), the
end-of-stream buffers of `fini` carry the values that follow those of the
units, and as long as no more than `2 ^ 64` timestamps have been handed out no
value is carried by two units or by a unit and an end-of-stream buffer. -/
theorem C3_timestamps_count_units (K : NdkConsts) (d0 : AndroidChiakiVideoDecoder)
    (w h : Int) (c : Nat) (me ce : Int) (ops : List Op) :
    ∃ r, run K (Run.start (android_chiaki_video_decoder_init K d0 w h c me ce).1) ops
        = some r ∧
      (∀ k, k < r.fed.length → (stamps r.fed)[k]? = some (k % UINT64_MOD)) ∧
      (∀ k, k + 1 < r.fed.length → ∃ t, (stamps r.fed)[k]? = some t ∧
        (stamps r.fed)[k + 1]? = some ((t + 1) % UINT64_MOD)) ∧
      (∀ j, j < r.eos.length → r.eos[j]? = some ((r.fed.length + j) % UINT64_MOD)) ∧
      (r.fed.length + r.eos.length ≤ UINT64_MOD → (stamps r.fed ++ r.eos).Nodup) := by
  obtain ⟨r, e, hi⟩ :=
    run_stamps K ops (Run.start (android_chiaki_video_decoder_init K d0 w h c me ce).1)
      (by rw [init_state]; exact Nat.zero_le _)
      (stamp_inv_start _ (by rw [init_state]))
  obtain ⟨h1, h2, h3⟩ := stamps_of_inv r hi
  refine ⟨r, e, h1, ?_, h2, h3⟩
  intro k hk
  exact ⟨k % UINT64_MOD, h1 k (by omega), by rw [h1 (k + 1) hk, succ_mod]⟩

/-- C3 on a whole session: the two units carry timestamps 0 and 1 and the
end-of-stream buffer carries 2. -/
theorem C3_timestamps_count_units_witness :
    (∃ r, run sampleConsts
        (Run.start (android_chiaki_video_decoder_init sampleConsts zeroDecoder
          1280 720 0 0 0).1) sessionOps = some r ∧
      (∀ k, k < r.fed.length → (stamps r.fed)[k]? = some (k % UINT64_MOD)) ∧
      (∀ k, k + 1 < r.fed.length → ∃ t, (stamps r.fed)[k]? = some t ∧
        (stamps r.fed)[k + 1]? = some ((t + 1) % UINT64_MOD)) ∧
      (∀ j, j < r.eos.length → r.eos[j]? = some ((r.fed.length + j) % UINT64_MOD)) ∧
      (r.fed.length + r.eos.length ≤ UINT64_MOD → (stamps r.fed ++ r.eos).Nodup)) ∧
    (run sampleConsts
        (Run.start (android_chiaki_video_decoder_init sampleConsts zeroDecoder
          1280 720 0 0 0).1) sessionOps).map (fun r => (stamps r.fed, r.eos))
      = some ([0, 1], [2]) :=
  ⟨C3_timestamps_count_units sampleConsts zeroDecoder 1280 720 0 0 0 sessionOps,
    by decide⟩

/-- C3 fails as stated: on the session `init(1280, 720, H264)` with its
surface set (codec 7, both threads created), after `2 ^ 64 + 1` rounds of
submit-then-dequeue the first unit and the unit number `2 ^ 64` are two
different units that both carry timestamp `0`. -/
theorem C3_counterexample_wraparound :
    ∃ r, run sampleConsts (Run.start freshDecoder)
        (Op.set_surface surfaceSucceeds 3 :: submit_feed_rounds (UINT64_MOD + 1))
        = some r ∧
      r.decoder.codec = 7 ∧
      r.fed.length = UINT64_MOD + 1 ∧
      (stamps r.fed)[0]? = some 0 ∧
      (stamps r.fed)[UINT64_MOD]? = some 0 := by
  have est := step_set_surface_eq sampleConsts (Run.start freshDecoder) surfaceSucceeds 3
  obtain ⟨r, e, hlen, hkept⟩ :=
    run_rounds sampleConsts (UINT64_MOD + 1)
      { Run.start freshDecoder with
        decoder := (android_chiaki_video_decoder_set_surface sampleConsts
          (Run.start freshDecoder).decoder surfaceSucceeds 3).1
        trace := (Run.start freshDecoder).trace ++
          (android_chiaki_video_decoder_set_surface sampleConsts
            (Run.start freshDecoder).decoder surfaceSucceeds 3).2 }
      (by decide) (by decide) (by decide)
  have efull : run sampleConsts (Run.start freshDecoder)
      (Op.set_surface surfaceSucceeds 3 :: submit_feed_rounds (UINT64_MOD + 1)) = some r := by
    rw [run_cons sampleConsts _ _ _ _ est, e]
  obtain ⟨r2, e2, hi⟩ :=
    run_stamps sampleConsts
      (Op.set_surface surfaceSucceeds 3 :: submit_feed_rounds (UINT64_MOD + 1))
      (Run.start freshDecoder) (Nat.zero_le _) (stamp_inv_start freshDecoder rfl)
  rw [efull] at e2
  cases e2
  have hlen' : r.fed.length = UINT64_MOD + 1 := by
    rw [hlen]
    exact Nat.zero_add _
  obtain ⟨h1, _, _⟩ := stamps_of_inv r hi
  refine ⟨r, efull, ?_, hlen', ?_, ?_⟩
  · rw [hkept]
    decide
  · rw [h1 0 (by omega), Nat.zero_mod]
  · rw [h1 UINT64_MOD (by omega), Nat.mod_self]

/-! ## The shutdown claims -/

/-- C5, as the code has it.  On a session without a codec `fini` leaves the
session as it is and makes no engine call and no join, so calling it twice is
the same as calling it once.  On a session with a codec `fini` keeps the codec
handle, and the second call is not a no-op: it asks for an input buffer again,
queues another end-of-stream buffer when it gets one, stops the codec, joins
both threads and deletes the same handle.  On any session two calls leave every
field but `timestamp_cur` as one call does, and over both calls no window is
released more than once. -/
theorem C5_fini_twice (decoder : AndroidChiakiVideoDecoder) (i1 i2 : Int) :
    (decoder.codec = 0 →
      android_chiaki_video_decoder_fini decoder i1 = (decoder, [Event.chiaki_mutex_fini]) ∧
      android_chiaki_video_decoder_fini (android_chiaki_video_decoder_fini decoder i1).1 i2
        = (decoder, [Event.chiaki_mutex_fini])) ∧
    ({ (android_chiaki_video_decoder_fini
          (android_chiaki_video_decoder_fini decoder i1).1 i2).1 with timestamp_cur := 0 }
      = { (android_chiaki_video_decoder_fini decoder i1).1 with timestamp_cur := 0 }) ∧
    (∀ w, List.count (Event.ANativeWindow_release w)
      ((android_chiaki_video_decoder_fini decoder i1).2 ++
        (android_chiaki_video_decoder_fini
          (android_chiaki_video_decoder_fini decoder i1).1 i2).2) ≤ 1) ∧
    (decoder.codec ≠ 0 →
      (android_chiaki_video_decoder_fini decoder i1).1.codec = decoder.codec ∧
      (android_chiaki_video_decoder_fini
          (android_chiaki_video_decoder_fini decoder i1).1 i2).2
        = [Event.AMediaCodec_dequeueInputBuffer decoder.codec] ++
          (if 0 ≤ i2 then
            [Event.CHIAKI_LOGI LogMsg.sending_eos,
             Event.AMediaCodec_queueInputBuffer decoder.codec i2 [] 0
               (android_chiaki_video_decoder_fini decoder i1).1.timestamp_cur true]
           else [Event.CHIAKI_LOGE LogMsg.fini_no_input_buffer]) ++
          [Event.AMediaCodec_stop decoder.codec,
           Event.chiaki_cond_signal,
           Event.chiaki_thread_join_output,
           Event.chiaki_thread_join_input,
           Event.AMediaCodec_delete decoder.codec,
           Event.chiaki_mutex_fini]) := by
  unfold android_chiaki_video_decoder_fini
  by_cases hc : decoder.codec = 0
  · simp [hc, List.count_cons]
  · by_cases h1 : 0 ≤ i1 <;> by_cases h2 : 0 ≤ i2 <;> simp [hc, h1, h2, List.count_cons]

/-- C5 on the freshly initialised session, which has no codec, and on a
running session, where the second call goes through the whole sequence
again. -/
theorem C5_fini_twice_witness :
    (android_chiaki_video_decoder_fini freshDecoder 0
        = (freshDecoder, [Event.chiaki_mutex_fini]) ∧
      android_chiaki_video_decoder_fini
          (android_chiaki_video_decoder_fini freshDecoder 0).1 0
        = (freshDecoder, [Event.chiaki_mutex_fini])) ∧
    ((android_chiaki_video_decoder_fini runningDecoder 0).1.codec = runningDecoder.codec ∧
      (android_chiaki_video_decoder_fini
          (android_chiaki_video_decoder_fini runningDecoder 0).1 0).2
        = [Event.AMediaCodec_dequeueInputBuffer runningDecoder.codec] ++
          (if (0 : Int) ≤ 0 then
            [Event.CHIAKI_LOGI LogMsg.sending_eos,
             Event.AMediaCodec_queueInputBuffer runningDecoder.codec 0 [] 0
               (android_chiaki_video_decoder_fini runningDecoder 0).1.timestamp_cur true]
           else [Event.CHIAKI_LOGE LogMsg.fini_no_input_buffer]) ++
          [Event.AMediaCodec_stop runningDecoder.codec,
           Event.chiaki_cond_signal,
           Event.chiaki_thread_join_output,
           Event.chiaki_thread_join_input,
           Event.AMediaCodec_delete runningDecoder.codec,
           Event.chiaki_mutex_fini]) :=
  ⟨(C5_fini_twice freshDecoder 0 0).1 (by decide),
    (C5_fini_twice runningDecoder 0 0).2.2.2 (by decide)⟩

/-- C5 fails as stated: on a running session the second `fini` is not a no-op.
It queues a second end-of-stream buffer, stops, joins and deletes codec 7
again, and leaves a state other than the one the first call left. -/
theorem C5_counterexample_second_fini :
    (android_chiaki_video_decoder_fini
        (android_chiaki_video_decoder_fini runningDecoder 0).1 0).1
      ≠ (android_chiaki_video_decoder_fini runningDecoder 0).1 ∧
    (android_chiaki_video_decoder_fini
        (android_chiaki_video_decoder_fini runningDecoder 0).1 0).2
      = [Event.AMediaCodec_dequeueInputBuffer 7,
         Event.CHIAKI_LOGI LogMsg.sending_eos,
         Event.AMediaCodec_queueInputBuffer 7 0 [] 0 1 true,
         Event.AMediaCodec_stop 7,
         Event.chiaki_cond_signal,
         Event.chiaki_thread_join_output,
         Event.chiaki_thread_join_input,
         Event.AMediaCodec_delete 7,
         Event.chiaki_mutex_fini] ∧
    List.count (Event.AMediaCodec_delete 7)
      ((android_chiaki_video_decoder_fini runningDecoder 0).2 ++
        (android_chiaki_video_decoder_fini
          (android_chiaki_video_decoder_fini runningDecoder 0).1 0).2) = 2 := by
  decide

/-- C6, as the code has it.  `video_sample` does not look at the shutdown
flag: after `fini` a call is rejected exactly when the queue holds four units
or the allocation fails; otherwise it returns `true` and appends the unit. -/
theorem C6_submit_after_fini (decoder : AndroidChiakiVideoDecoder) (codec_buf_index : Int)
    (buf : List Nat) (malloc_ok : Bool) :
    ∃ ok d,
      android_chiaki_video_decoder_video_sample buf malloc_ok
        (android_chiaki_video_decoder_fini decoder codec_buf_index).1 = some (ok, d) ∧
      (ok = true ↔
        (decoder.bufs_count < ANDROID_CHIAKI_VIDEO_DECODER_FRAME_BUFFER_SIZE ∧
          malloc_ok = true)) ∧
      (ok = true → d.bufs_count = decoder.bufs_count + 1 ∧
        queue d = queue decoder ++ [(buf, buf.length)]) ∧
      (ok = false → d = (android_chiaki_video_decoder_fini decoder codec_buf_index).1) := by
  obtain ⟨hb, hsz, hcnt, _⟩ := fini_frame decoder codec_buf_index
  obtain ⟨ok, d, e, hiff, hf, ht, _⟩ :=
    video_sample_total buf malloc_ok
      (android_chiaki_video_decoder_fini decoder codec_buf_index).1
  rw [hcnt] at hiff ht
  rw [queue_congr decoder _ hb hsz hcnt] at ht
  exact ⟨ok, d, e, hiff, ht, hf⟩

/-- C6 fails as stated: after `fini` on a running session (shutdown flag
raised) a `video_sample` call returns `true` and the unit is in the queue. -/
theorem C6_counterexample_accepted_after_fini :
    (android_chiaki_video_decoder_fini runningDecoder 0).1.shutdown = true ∧
    (android_chiaki_video_decoder_video_sample [1, 2] true
        (android_chiaki_video_decoder_fini runningDecoder 0).1).map
      (fun x => (x.1, x.2.bufs_count, queue x.2)) = some (true, 1, [([1, 2], 2)]) := by
  decide

/-! ## The render-target claim -/

/-- C7. A first `set_surface` call (no codec yet) in which codec creation,
configuration or start fails returns with `codec = NULL` and `window = NULL`
and every other field of the session, the queue, `timestamp_cur` and the
shutdown flag among them, as before.  The one window acquired has been released
exactly once; the codec, if one was created, has been deleted exactly once and
nothing else has been deleted; no thread has been created. -/
theorem C7_set_surface_failure (K : NdkConsts) (decoder : AndroidChiakiVideoDecoder)
    (env : SurfaceEnv) (surface : Nat) (hc : decoder.codec = 0)
    (hfail : env.codec = 0 ∨ env.configure ≠ K.AMEDIA_OK ∨ env.start ≠ K.AMEDIA_OK) :
    ∃ d ev, android_chiaki_video_decoder_set_surface K decoder env surface = (d, ev) ∧
      d = { decoder with window := 0 } ∧ d.codec = 0 ∧ d.window = 0 ∧
      List.count (Event.ANativeWindow_fromSurface surface env.window) ev = 1 ∧
      (∀ s w, Event.ANativeWindow_fromSurface s w ∈ ev → s = surface ∧ w = env.window) ∧
      List.count (Event.ANativeWindow_release env.window) ev = 1 ∧
      (∀ w, Event.ANativeWindow_release w ∈ ev → w = env.window) ∧
      List.count (Event.AMediaCodec_createDecoderByType
        (K.chiaki_codec_is_h265 decoder.target_codec) env.codec) ev = 1 ∧
      (∀ m x, Event.AMediaCodec_createDecoderByType m x ∈ ev → x = env.codec) ∧
      List.count (Event.AMediaCodec_delete env.codec) ev = (if env.codec = 0 then 0 else 1) ∧
      (∀ x, Event.AMediaCodec_delete x ∈ ev → x = env.codec ∧ env.codec ≠ 0) ∧
      Event.chiaki_thread_create_input ∉ ev ∧
      Event.chiaki_thread_create_output ∉ ev := by
  refine ⟨(android_chiaki_video_decoder_set_surface K decoder env surface).1,
    (android_chiaki_video_decoder_set_surface K decoder env surface).2, rfl, ?_⟩
  unfold android_chiaki_video_decoder_set_surface
  by_cases h1 : env.codec = 0
  · simp [hc, h1, set_surface_error_surface, List.count_cons]
  · by_cases h2 : env.configure = K.AMEDIA_OK
    · have h3 : env.start ≠ K.AMEDIA_OK := by
        rcases hfail with h | h | h
        · exact absurd h h1
        · exact absurd h2 h
        · exact h
      simp [hc, h1, h2, h3, set_surface_error_codec, set_surface_error_surface,
        List.count_cons]
    · simp [hc, h1, h2, set_surface_error_codec, set_surface_error_surface,
        List.count_cons]

/-- C7 on the freshly initialised session when `AMediaCodec_configure` fails. -/
theorem C7_set_surface_failure_witness :
    ∃ d ev, android_chiaki_video_decoder_set_surface sampleConsts freshDecoder
        configureFails 3 = (d, ev) ∧
      d = { freshDecoder with window := 0 } ∧ d.codec = 0 ∧ d.window = 0 ∧
      List.count (Event.ANativeWindow_fromSurface 3 configureFails.window) ev = 1 ∧
      (∀ s w, Event.ANativeWindow_fromSurface s w ∈ ev →
        s = 3 ∧ w = configureFails.window) ∧
      List.count (Event.ANativeWindow_release configureFails.window) ev = 1 ∧
      (∀ w, Event.ANativeWindow_release w ∈ ev → w = configureFails.window) ∧
      List.count (Event.AMediaCodec_createDecoderByType
        (sampleConsts.chiaki_codec_is_h265 freshDecoder.target_codec)
        configureFails.codec) ev = 1 ∧
      (∀ m x, Event.AMediaCodec_createDecoderByType m x ∈ ev → x = configureFails.codec) ∧
      List.count (Event.AMediaCodec_delete configureFails.codec) ev
        = (if configureFails.codec = 0 then 0 else 1) ∧
      (∀ x, Event.AMediaCodec_delete x ∈ ev →
        x = configureFails.codec ∧ configureFails.codec ≠ 0) ∧
      Event.chiaki_thread_create_input ∉ ev ∧
      Event.chiaki_thread_create_output ∉ ev :=
  C7_set_surface_failure sampleConsts freshDecoder configureFails 3 (by decide)
    (Or.inr (Or.inl (by decide)))

/-! ## The worker-loop claims -/

/-- C8, as the code has it.  In a pass of the output loop whose poll returns a
negative status, the loop exits exactly when the shutdown flag is raised.
With the flag down it polls again whatever the negative status is; a status
other than `AMEDIACODEC_INFO_TRY_AGAIN_LATER` is logged once in that pass, the
timeout status is not logged.  With the flag raised the pass logs the shutdown
and not the status. -/
theorem C8_output_negative_status (K : NdkConsts) (decoder : AndroidChiakiVideoDecoder)
    (poll : OutputPoll) (hneg : poll.status < 0) :
    ((output_thread_step K decoder poll).1 = true ↔ decoder.shutdown = true) ∧
    (decoder.shutdown = false → poll.status ≠ K.AMEDIACODEC_INFO_TRY_AGAIN_LATER →
      (output_thread_step K decoder poll).2
        = [Event.AMediaCodec_dequeueOutputBuffer decoder.codec,
           Event.CHIAKI_LOGE (LogMsg.output_dequeue_error poll.status)]) ∧
    (decoder.shutdown = false → poll.status = K.AMEDIACODEC_INFO_TRY_AGAIN_LATER →
      (output_thread_step K decoder poll).2
        = [Event.AMediaCodec_dequeueOutputBuffer decoder.codec]) ∧
    (decoder.shutdown = true →
      (output_thread_step K decoder poll).2
        = [Event.AMediaCodec_dequeueOutputBuffer decoder.codec,
           Event.CHIAKI_LOGI LogMsg.shutdown_after_error]) ∧
    (decoder.shutdown = false → ∀ rest,
      android_chiaki_video_decoder_output_thread_func K ((decoder, poll) :: rest)
        = (android_chiaki_video_decoder_output_thread_func K rest).map
            (fun ev => (output_thread_step K decoder poll).2 ++ ev)) := by
  have hn : ¬ poll.status ≥ 0 := by omega
  have hstep : output_thread_step K decoder poll
      = if decoder.shutdown = true then
          (true, [Event.AMediaCodec_dequeueOutputBuffer decoder.codec,
            Event.CHIAKI_LOGI LogMsg.shutdown_after_error])
        else if poll.status ≠ K.AMEDIACODEC_INFO_TRY_AGAIN_LATER then
          (false, [Event.AMediaCodec_dequeueOutputBuffer decoder.codec,
            Event.CHIAKI_LOGE (LogMsg.output_dequeue_error poll.status)])
        else (false, [Event.AMediaCodec_dequeueOutputBuffer decoder.codec]) := by
    unfold output_thread_step
    simp only [hn, if_false]
    rfl
  cases hs : decoder.shutdown with
  | true =>
    rw [hstep]
    simp [hs]
  | false =>
    by_cases ht : poll.status = K.AMEDIACODEC_INFO_TRY_AGAIN_LATER
    · have e : output_thread_step K decoder poll
          = (false, [Event.AMediaCodec_dequeueOutputBuffer decoder.codec]) := by
        rw [hstep, if_neg (by simp [hs]), if_neg (by simp [ht])]
      refine ⟨by simp [e], fun _ h => absurd ht h, fun _ _ => by rw [e], by simp, ?_⟩
      intro _ rest
      simp only [android_chiaki_video_decoder_output_thread_func, e]
      cases android_chiaki_video_decoder_output_thread_func K rest <;> rfl
    · have e : output_thread_step K decoder poll
          = (false, [Event.AMediaCodec_dequeueOutputBuffer decoder.codec,
              Event.CHIAKI_LOGE (LogMsg.output_dequeue_error poll.status)]) := by
        rw [hstep, if_neg (by simp [hs]), if_pos ht]
      refine ⟨by simp [e], fun _ _ => by rw [e], fun _ h => absurd h ht, by simp, ?_⟩
      intro _ rest
      simp only [android_chiaki_video_decoder_output_thread_func, e]
      cases android_chiaki_video_decoder_output_thread_func K rest <;> rfl

/-- C8 on the running session, shutdown not requested, with an error status:
the pass does not leave the loop. -/
theorem C8_output_negative_status_witness :
    ((output_thread_step sampleConsts runningDecoder errorPoll).1 = true
      ↔ runningDecoder.shutdown = true) ∧
    (output_thread_step sampleConsts runningDecoder errorPoll).2
      = [Event.AMediaCodec_dequeueOutputBuffer runningDecoder.codec,
         Event.CHIAKI_LOGE (LogMsg.output_dequeue_error errorPoll.status)] :=
  ⟨(C8_output_negative_status sampleConsts runningDecoder errorPoll (by decide)).1,
    (C8_output_negative_status sampleConsts runningDecoder errorPoll (by decide)).2.1
      (by decide) (by decide)⟩

/-- C8 fails as stated: with shutdown not requested an error status other than
the timeout does not end the loop, and when it comes twice it is logged
twice. -/
theorem C8_counterexample_error_polls_again :
    errorPoll.status < 0 ∧
    errorPoll.status ≠ sampleConsts.AMEDIACODEC_INFO_TRY_AGAIN_LATER ∧
    runningDecoder.shutdown = false ∧
    output_thread_step sampleConsts runningDecoder errorPoll
      = (false, [Event.AMediaCodec_dequeueOutputBuffer 7,
          Event.CHIAKI_LOGE (LogMsg.output_dequeue_error (-10000))]) ∧
    android_chiaki_video_decoder_output_thread_func sampleConsts
        [(runningDecoder, errorPoll), (runningDecoder, errorPoll), (runningDecoder, eosPoll)]
      = some [Event.AMediaCodec_dequeueOutputBuffer 7,
          Event.CHIAKI_LOGE (LogMsg.output_dequeue_error (-10000)),
          Event.AMediaCodec_dequeueOutputBuffer 7,
          Event.CHIAKI_LOGE (LogMsg.output_dequeue_error (-10000)),
          Event.AMediaCodec_dequeueOutputBuffer 7,
          Event.AMediaCodec_releaseOutputBuffer 7 0 false,
          Event.CHIAKI_LOGI LogMsg.reported_eos,
          Event.CHIAKI_LOGI LogMsg.output_thread_exiting] := by
  decide

/-- C9, as the code has it.  After its wait returns, the input thread leaves
its loop exactly when the shutdown flag is raised, whatever the queue holds,
and then without dequeuing anything; it stays in the wait exactly when the flag
is down and the queue is empty; with the flag down and a unit queued it
dequeues the oldest unit. -/
theorem C9_input_thread_exit (decoder : AndroidChiakiVideoDecoder)
    (h4 : decoder.bufs_count ≤ ANDROID_CHIAKI_VIDEO_DECODER_FRAME_BUFFER_SIZE) :
    (input_thread_locked decoder = some InputStep.exit ↔ decoder.shutdown = true) ∧
    (input_thread_locked decoder = some InputStep.waiting ↔
      (decoder.shutdown = false ∧ decoder.bufs_count = 0)) ∧
    (decoder.shutdown = false → 1 ≤ decoder.bufs_count →
      ∃ d, input_thread_locked decoder
          = some (InputStep.dequeued d decoder.bufs.e0 decoder.bufs_sizes.e0
              decoder.timestamp_cur) ∧
        queue decoder = (decoder.bufs.e0, decoder.bufs_sizes.e0) :: queue d) ∧
    (decoder.shutdown = true → ∀ (K : NdkConsts) (fuel : Nat) (slots : List InputSlot),
      input_thread_loop K (fuel + 1) decoder slots
        = some (InputThreadEnd.exited, decoder, [])) := by
  rcases input_thread_locked_cases decoder h4 with
    ⟨hs, h0, e⟩ | ⟨hs, e⟩ | ⟨hs, h1, d, e, hq, _⟩
  · refine ⟨by simp [e, hs], by simp [e, hs, h0], fun _ h => ?_, fun h => ?_⟩
    · omega
    · rw [hs] at h
      exact absurd h (by decide)
  · refine ⟨by simp [e, hs], by simp [e, hs], fun h => ?_, fun _ K fuel slots => ?_⟩
    · rw [hs] at h
      exact absurd h (by decide)
    · simp only [input_thread_loop, e]
  · refine ⟨by simp [e, hs], ?_, fun _ _ => ⟨d, e, hq⟩, fun h => ?_⟩
    · have : decoder.bufs_count ≠ 0 := by omega
      simp [e, this]
    · rw [hs] at h
      exact absurd h (by decide)

/-- C9 on the full session once shutdown is signalled: the thread exits. -/
theorem C9_input_thread_exit_witness :
    input_thread_locked closingDecoder = some InputStep.exit ↔
      closingDecoder.shutdown = true :=
  (C9_input_thread_exit closingDecoder (by decide)).1

/-- C9 fails as stated: with shutdown signalled and four units queued the
input thread exits at once; it transfers nothing, frees nothing, and the four
units are still in the queue when it has gone. -/
theorem C9_counterexample_exit_with_pending :
    closingDecoder.shutdown = true ∧
    queue closingDecoder = [([1], 1), ([2, 3], 2), ([4], 1), ([5, 6, 7], 3)] ∧
    input_thread_locked closingDecoder = some InputStep.exit ∧
    android_chiaki_video_decoder_input_thread_func sampleConsts 5 closingDecoder
        [⟨0, 100, 0⟩, ⟨1, 100, 0⟩, ⟨2, 100, 0⟩, ⟨3, 100, 0⟩]
      = some (InputThreadEnd.exited, closingDecoder,
          [Event.CHIAKI_LOGI LogMsg.input_thread_exiting]) := by
  decide

/-! ## The slot-splitting claim -/

theorem transfers_append (a b : List Event) :
    transfers (a ++ b) = transfers a ++ transfers b := by
  induction a with
  | nil => rfl
  | cons e a ih =>
    cases e with
    | AMediaCodec_queueInputBuffer c i d n t eos =>
      cases eos <;> simp [transfers, ih]
    | _ => simp [transfers, ih]

/-- With nothing left to send the transfer loop makes no call and consumes no
engine answer. -/
theorem transfer_done (K : NdkConsts) (codec t : Nat) (slots : List InputSlot)
    (buf : List Nat) :
    input_thread_transfer K codec t slots buf 0 = some ([], slots) := by
  cases slots <;> simp [input_thread_transfer]

/-- A failed slot acquisition ends the transfer loop. -/
theorem transfer_failed (K : NdkConsts) (codec t : Nat) (slot : InputSlot)
    (slots : List InputSlot) (buf : List Nat) (n : Nat) (hn : 0 < n)
    (hi : slot.codec_buf_index < 0) :
    ∃ ev, input_thread_transfer K codec t (slot :: slots) buf n = some (ev, slots) ∧
      transfers ev = [] := by
  refine ⟨[Event.AMediaCodec_dequeueInputBuffer codec,
    Event.CHIAKI_LOGE (LogMsg.input_buffer_failed slot.codec_buf_index)], ?_, ?_⟩
  · simp only [input_thread_transfer, gt_iff_lt, hn, hi, if_true]
  · simp [transfers]

/-- One pass of the transfer loop with a slot acquired: `min(n, capacity)`
bytes go out with timestamp `t`, and the loop goes on with the rest. -/
theorem transfer_pass (K : NdkConsts) (codec t : Nat) (slot : InputSlot)
    (slots : List InputSlot) (buf : List Nat) (n : Nat) (hn : 0 < n)
    (hi : 0 ≤ slot.codec_buf_index) :
    ∃ head, transfers head
        = [(buf.take (min n slot.codec_buf_size), min n slot.codec_buf_size, t)] ∧
      input_thread_transfer K codec t (slot :: slots) buf n
        = (input_thread_transfer K codec t slots (buf.drop (min n slot.codec_buf_size))
            (n - min n slot.codec_buf_size)).map (fun x => (head ++ x.1, x.2)) := by
  have hi' : ¬ slot.codec_buf_index < 0 := by omega
  have hk : (if n > slot.codec_buf_size then slot.codec_buf_size else n)
      = min n slot.codec_buf_size := by
    split_ifs <;> omega
  by_cases hq : slot.queue_status = K.AMEDIA_OK
  · refine ⟨[Event.AMediaCodec_dequeueInputBuffer codec,
        Event.AMediaCodec_getInputBuffer codec slot.codec_buf_index,
        Event.AMediaCodec_queueInputBuffer codec slot.codec_buf_index
          (buf.take (min n slot.codec_buf_size)) (min n slot.codec_buf_size) t false],
      by simp [transfers], ?_⟩
    simp only [input_thread_transfer, gt_iff_lt, hn, hi', if_true, if_false, hk, ne_eq, hq,
      not_true_eq_false]
    cases input_thread_transfer K codec t slots (buf.drop (min n slot.codec_buf_size))
      (n - min n slot.codec_buf_size) <;> rfl
  · refine ⟨[Event.AMediaCodec_dequeueInputBuffer codec,
        Event.AMediaCodec_getInputBuffer codec slot.codec_buf_index,
        Event.AMediaCodec_queueInputBuffer codec slot.codec_buf_index
          (buf.take (min n slot.codec_buf_size)) (min n slot.codec_buf_size) t false,
        Event.CHIAKI_LOGE (LogMsg.queue_input_failed slot.queue_status)],
      by simp [transfers], ?_⟩
    simp only [input_thread_transfer, gt_iff_lt, hn, hi', if_true, if_false, hk, ne_eq, hq,
      not_false_eq_true]
    cases input_thread_transfer K codec t slots (buf.drop (min n slot.codec_buf_size))
      (n - min n slot.codec_buf_size) <;> rfl

theorem claimed_transfers_done (p : List Nat) (off : Nat) (cs : List Nat)
    (h : p.length ≤ off) : claimed_transfers p off cs = [] := by
  cases cs with
  | nil => rfl
  | cons c cs =>
    have : ¬ off < p.length := by omega
    simp [claimed_transfers, this]

/-- Slots that are all acquired, each with a positive capacity. -/
theorem caps_sum_ge_length (good : List InputSlot)
    (hg : ∀ s ∈ good, 0 ≤ s.codec_buf_index ∧ 0 < s.codec_buf_size) :
    good.length ≤ (good.map (fun s => s.codec_buf_size)).sum := by
  induction good with
  | nil => simp
  | cons s g ih =>
    have h1 := (hg s (List.mem_cons_self s g)).2
    have h2 := ih (fun x hx => hg x (List.mem_cons_of_mem s hx))
    simp only [List.length_cons, List.map_cons, List.sum_cons]
    omega

/-- The bytes left after a pass, in terms of offsets into the payload. -/
theorem drop_after_pass (p : List Nat) (off c : Nat) :
    (p.drop off).drop (min (p.length - off) c) = p.drop (off + c) ∧
    p.length - off - min (p.length - off) c = p.length - (off + c) := by
  refine ⟨?_, by omega⟩
  rw [List.drop_drop]
  by_cases h : p.length - off ≤ c
  · rw [Nat.min_eq_left h, List.drop_eq_nil_of_le (by omega),
      List.drop_eq_nil_of_le (by omega)]
  · rw [Nat.min_eq_right (by omega)]

/-- The transfer loop with enough acquired capacity: it ends, and its
transfers are the claimed ones, which together are the bytes from `off` on. -/
theorem transfer_complete (K : NdkConsts) (codec t : Nat) (p : List Nat)
    (rest : List InputSlot) (good : List InputSlot) :
    ∀ off, (∀ s ∈ good, 0 ≤ s.codec_buf_index ∧ 0 < s.codec_buf_size) →
      p.length ≤ off + (good.map (fun s => s.codec_buf_size)).sum →
      ∃ ev rest', input_thread_transfer K codec t (good ++ rest) (p.drop off)
          (p.length - off) = some (ev, rest') ∧
        transfers ev = (claimed_transfers p off (good.map (fun s => s.codec_buf_size))).map
          (fun ch => (ch, ch.length, t)) ∧
        (claimed_transfers p off (good.map (fun s => s.codec_buf_size))).flatten
          = p.drop off := by
  induction good with
  | nil =>
    intro off _ hle
    simp only [List.map_nil, List.sum_nil, Nat.add_zero] at hle
    have h0 : p.length - off = 0 := by omega
    rw [h0]
    exact ⟨[], rest, transfer_done K codec t _ _, rfl,
      by rw [List.drop_eq_nil_of_le hle]; rfl⟩
  | cons s g ih =>
    intro off hg hle
    by_cases hlt : off < p.length
    · obtain ⟨hi, hc⟩ := hg s (List.mem_cons_self s g)
      obtain ⟨head, hhead, e⟩ :=
        transfer_pass K codec t s (g ++ rest) (p.drop off) (p.length - off) (by omega) hi
      obtain ⟨hd, hn⟩ := drop_after_pass p off s.codec_buf_size
      rw [hd, hn] at e
      simp only [List.map_cons, List.sum_cons] at hle
      obtain ⟨ev, rest', e', htr, hfl⟩ :=
        ih (off + s.codec_buf_size) (fun x hx => hg x (List.mem_cons_of_mem s hx))
          (by omega)
      rw [e'] at e
      refine ⟨head ++ ev, rest', e, ?_, ?_⟩
      · rw [transfers_append, hhead, htr]
        simp only [List.map_cons, claimed_transfers, hlt, if_true, List.map,
          List.singleton_append, List.length_take, List.length_drop]
        congr 2
        simp
      · simp only [List.map_cons, claimed_transfers, hlt, if_true, List.flatten_cons]
        rw [hfl, ← hd, List.take_append_drop]
    · have h0 : p.length - off = 0 := by omega
      rw [h0, claimed_transfers_done p off _ (by omega)]
      exact ⟨[], s :: g ++ rest, transfer_done K codec t _ _, rfl,
        by rw [List.drop_eq_nil_of_le (by omega)]; rfl⟩

/-- The transfer loop when the acquisition after the slots `good` fails before
the payload is exhausted: one transfer per acquired slot, each of the full
capacity, together the first `sum of capacities` bytes from `off` on; the loop
ends there and the remaining engine answers are left for the next unit. -/
theorem transfer_abandoned (K : NdkConsts) (codec t : Nat) (p : List Nat)
    (bad : InputSlot) (rest : List InputSlot) (hbad : bad.codec_buf_index < 0)
    (good : List InputSlot) :
    ∀ off, (∀ s ∈ good, 0 ≤ s.codec_buf_index ∧ 0 < s.codec_buf_size) →
      off + (good.map (fun s => s.codec_buf_size)).sum < p.length →
      ∃ ev, input_thread_transfer K codec t (good ++ bad :: rest) (p.drop off)
          (p.length - off) = some (ev, rest) ∧
        transfers ev = (claimed_transfers p off (good.map (fun s => s.codec_buf_size))).map
          (fun ch => (ch, ch.length, t)) ∧
        (claimed_transfers p off (good.map (fun s => s.codec_buf_size))).flatten
          = (p.drop off).take (good.map (fun s => s.codec_buf_size)).sum ∧
        (transfers ev).length = good.length := by
  induction good with
  | nil =>
    intro off _ hlt
    simp only [List.map_nil, List.sum_nil, Nat.add_zero] at hlt
    obtain ⟨ev, e, htr⟩ :=
      transfer_failed K codec t bad rest (p.drop off) (p.length - off) (by omega) hbad
    exact ⟨ev, e, by rw [htr]; rfl, by simp [claimed_transfers], by rw [htr]; rfl⟩
  | cons s g ih =>
    intro off hg hlt
    simp only [List.map_cons, List.sum_cons] at hlt
    obtain ⟨hi, hc⟩ := hg s (List.mem_cons_self s g)
    obtain ⟨head, hhead, e⟩ :=
      transfer_pass K codec t s (g ++ bad :: rest) (p.drop off) (p.length - off)
        (by omega) hi
    obtain ⟨hd, hn⟩ := drop_after_pass p off s.codec_buf_size
    rw [hd, hn] at e
    obtain ⟨ev, e', htr, hfl, hlen⟩ :=
      ih (off + s.codec_buf_size) (fun x hx => hg x (List.mem_cons_of_mem s hx))
        (by omega)
    rw [e'] at e
    have hoff : off < p.length := by omega
    have hmin : min (p.length - off) s.codec_buf_size = s.codec_buf_size :=
      Nat.min_eq_right (by omega)
    refine ⟨head ++ ev, e, ?_, ?_, ?_⟩
    · rw [transfers_append, hhead, htr]
      simp only [List.map_cons, claimed_transfers, hoff, if_true, List.map,
        List.singleton_append, List.length_take, List.length_drop]
      congr 2
      simp
    · simp only [List.map_cons, claimed_transfers, hoff, if_true, List.flatten_cons,
        List.sum_cons]
      rw [hfl, hmin, List.take_add, List.drop_drop]
    · rw [transfers_append, hhead, List.length_append, hlen, List.length_singleton,
        List.length_cons, Nat.add_comm]

theorem transfers_data (t : Nat) (chunks : List (List Nat)) :
    ((chunks.map (fun ch => (ch, ch.length, t))).map (fun x => x.1)) = chunks := by
  induction chunks with
  | nil => rfl
  | cons c cs ih => simp only [List.map_cons, ih]

/-- One pass of the input thread's loop that dequeues: given what the transfer
loop does with the oldest unit, the thread makes those calls, frees the unit
and goes on with the session the dequeue left and the engine answers not yet
consumed. -/
theorem input_thread_loop_pass (K : NdkConsts) (d : AndroidChiakiVideoDecoder)
    (slots rest' : List InputSlot) (ev : List Event)
    (hs : d.shutdown = false) (h1 : 1 ≤ d.bufs_count)
    (h4 : d.bufs_count ≤ ANDROID_CHIAKI_VIDEO_DECODER_FRAME_BUFFER_SIZE)
    (e : input_thread_transfer K d.codec d.timestamp_cur slots d.bufs.e0 d.bufs_sizes.e0
      = some (ev, rest')) :
    ∃ d', queue d = (d.bufs.e0, d.bufs_sizes.e0) :: queue d' ∧
      d'.bufs_count + 1 = d.bufs_count ∧
      d'.timestamp_cur = (d.timestamp_cur + 1) % UINT64_MOD ∧
      d'.codec = d.codec ∧ d'.shutdown = false ∧
      ∀ fuel, input_thread_loop K (fuel + 1) d slots
        = (input_thread_loop K fuel d' rest').map
            (fun x => (x.1, x.2.1, ev ++ [Event.free d.bufs.e0] ++ x.2.2)) := by
  obtain ⟨d', el, hq, hc, ht, hk, _, hs'⟩ := input_thread_locked_dequeue d hs h1 h4
  refine ⟨d', hq, hc, ht, hk, by rw [hs', hs], fun fuel => ?_⟩
  rw [← hk] at e
  simp only [input_thread_loop, el, e]
  cases input_thread_loop K fuel d' rest' with
  | none => rfl
  | some x =>
    obtain ⟨a, b, c⟩ := x
    rfl

/-- With shutdown not signalled and nothing queued the input thread stays in
its wait. -/
theorem input_thread_loop_blocked (K : NdkConsts) (d : AndroidChiakiVideoDecoder)
    (slots : List InputSlot) (fuel : Nat) (hs : d.shutdown = false)
    (h0 : d.bufs_count = 0) :
    input_thread_loop K (fuel + 1) d slots = some (InputThreadEnd.blocked, d, []) := by
  simp only [input_thread_loop, input_thread_locked_waiting d hs h0]

theorem queue_one (d : AndroidChiakiVideoDecoder) (h : d.bufs_count = 1) :
    queue d = [(d.bufs.e0, d.bufs_sizes.e0)] := by
  simp [queue, Arr4.toList, h]

theorem queue_two (d : AndroidChiakiVideoDecoder) (h : d.bufs_count = 2) :
    queue d = [(d.bufs.e0, d.bufs_sizes.e0), (d.bufs.e1, d.bufs_sizes.e1)] := by
  simp [queue, Arr4.toList, h]

/-- The input thread on a running session that holds two units `p` and `q`,
when the engine hands out the slots `good`, then fails once while bytes of `p`
remain, then hands out slots `good2` that cover `q`: the transfers of `p` are
followed by `free(p)`, then come the transfers of `q`, with the next
timestamp, and `free(q)`; the thread ends up waiting on an empty queue. -/
theorem input_thread_abandons_and_proceeds (K : NdkConsts) (d : AndroidChiakiVideoDecoder)
    (fuel : Nat) (good good2 rest3 : List InputSlot) (bad : InputSlot)
    (hs : d.shutdown = false) (h2 : d.bufs_count = 2) (hk : d.codec ≠ 0)
    (hp : d.bufs_sizes.e0 = d.bufs.e0.length) (hq : d.bufs_sizes.e1 = d.bufs.e1.length)
    (hg : ∀ s ∈ good, 0 ≤ s.codec_buf_index ∧ 0 < s.codec_buf_size)
    (hbad : bad.codec_buf_index < 0)
    (hlt : (good.map (fun s => s.codec_buf_size)).sum < d.bufs.e0.length)
    (hg2 : ∀ s ∈ good2, 0 ≤ s.codec_buf_index ∧ 0 < s.codec_buf_size)
    (hle : d.bufs.e1.length ≤ (good2.map (fun s => s.codec_buf_size)).sum) :
    ∃ d' ev1 ev2,
      android_chiaki_video_decoder_input_thread_func K (fuel + 3) d
          (good ++ bad :: (good2 ++ rest3))
        = some (InputThreadEnd.blocked, d',
            ev1 ++ [Event.free d.bufs.e0] ++ ev2 ++ [Event.free d.bufs.e1]) ∧
      transfers ev1
        = (claimed_transfers d.bufs.e0 0 (good.map (fun s => s.codec_buf_size))).map
            (fun ch => (ch, ch.length, d.timestamp_cur)) ∧
      ((transfers ev1).map (fun x => x.1)).flatten
        = d.bufs.e0.take (good.map (fun s => s.codec_buf_size)).sum ∧
      transfers ev2
        = (claimed_transfers d.bufs.e1 0 (good2.map (fun s => s.codec_buf_size))).map
            (fun ch => (ch, ch.length, (d.timestamp_cur + 1) % UINT64_MOD)) ∧
      ((transfers ev2).map (fun x => x.1)).flatten = d.bufs.e1 ∧
      d'.bufs_count = 0 ∧ d'.shutdown = false := by
  have hsz : ANDROID_CHIAKI_VIDEO_DECODER_FRAME_BUFFER_SIZE = 4 := rfl
  obtain ⟨ev1, e1, htr1, hfl1, _⟩ :=
    transfer_abandoned K d.codec d.timestamp_cur d.bufs.e0 bad (good2 ++ rest3) hbad good 0
      hg (by omega)
  simp only [List.drop_zero, Nat.sub_zero] at e1 hfl1
  rw [← hp] at e1
  obtain ⟨d1, hq1, hc1, ht1, hk1, hs1, hloop1⟩ :=
    input_thread_loop_pass K d _ _ ev1 hs (by omega) (by rw [hsz]; omega) e1
  have hcount1 : d1.bufs_count = 1 := by omega
  have hhead : d1.bufs.e0 = d.bufs.e1 ∧ d1.bufs_sizes.e0 = d.bufs_sizes.e1 := by
    rw [queue_two d h2, queue_one d1 hcount1] at hq1
    have h := (List.cons.inj (List.cons.inj hq1).2).1
    exact ⟨(Prod.mk.inj h).1.symm, (Prod.mk.inj h).2.symm⟩
  obtain ⟨ev2, rest', e2, htr2, hfl2⟩ :=
    transfer_complete K d.codec ((d.timestamp_cur + 1) % UINT64_MOD) d.bufs.e1 rest3 good2
      0 hg2 (by omega)
  simp only [List.drop_zero, Nat.sub_zero] at e2 hfl2
  rw [← hq, ← hhead.1, ← hhead.2, ← hk1, ← ht1] at e2
  obtain ⟨d2, _, hc2, _, _, hs2, hloop2⟩ :=
    input_thread_loop_pass K d1 _ _ ev2 hs1 (by omega) (by rw [hsz]; omega) e2
  have hcount2 : d2.bufs_count = 0 := by omega
  refine ⟨d2, ev1, ev2, ?_, htr1, by rw [htr1, transfers_data, hfl1], htr2,
    by rw [htr2, transfers_data, hfl2], hcount2, hs2⟩
  have hrun : input_thread_loop K (fuel + 3) d (good ++ bad :: (good2 ++ rest3))
      = some (InputThreadEnd.blocked, d2,
          ev1 ++ [Event.free d.bufs.e0] ++ ev2 ++ [Event.free d.bufs.e1]) := by
    rw [hloop1 (fuel + 2), hloop2 (fuel + 1),
      input_thread_loop_blocked K d2 rest' fuel hs2 hcount2, hhead.1]
    simp
  simp only [android_chiaki_video_decoder_input_thread_func, hk, if_false, hrun]

/-- C10. One dequeued unit `p` with timestamp `t` is sent through the slots
the engine hands out, `good` being slots that are acquired with positive
capacities `c_1, c_2, ...`.  The transfers made are the claimed ones: the
`i`-th copies `min(remaining_i, c_i)` bytes of `p` from offset
`c_1 + ... + c_(i-1)` and is queued with timestamp `t`.  If the capacities
cover `p` (which they do as soon as there are `|p|` slots) the loop ends and
the transfers concatenate to `p`.  If the acquisition after `good` fails while
bytes remain, there is exactly one transfer per slot of `good`, together the
first `c_1 + ... + c_j` bytes of `p`, and the loop ends.  The input thread then
frees `p` and goes on to the next unit: on a running session that holds `p`
and a second unit, with slots that cover the second unit after the failure,
the thread's calls are the transfers of `p`, `free(p)`, the transfers of the
whole second unit with the next timestamp, and its `free`, after which the
thread waits on an empty queue. -/
theorem C10_slot_splitting (K : NdkConsts) (codec t : Nat) (p : List Nat)
    (good rest : List InputSlot)
    (hg : ∀ s ∈ good, 0 ≤ s.codec_buf_index ∧ 0 < s.codec_buf_size) :
    (p.length ≤ (good.map (fun s => s.codec_buf_size)).sum →
      ∃ ev rest', input_thread_transfer K codec t (good ++ rest) p p.length
          = some (ev, rest') ∧
        transfers ev = (claimed_transfers p 0 (good.map (fun s => s.codec_buf_size))).map
          (fun ch => (ch, ch.length, t)) ∧
        ((transfers ev).map (fun x => x.1)).flatten = p) ∧
    (p.length ≤ good.length →
      ∃ ev rest', input_thread_transfer K codec t (good ++ rest) p p.length
          = some (ev, rest') ∧
        ((transfers ev).map (fun x => x.1)).flatten = p) ∧
    (∀ bad rest2, rest = bad :: rest2 → bad.codec_buf_index < 0 →
      (good.map (fun s => s.codec_buf_size)).sum < p.length →
      ∃ ev, input_thread_transfer K codec t (good ++ rest) p p.length = some (ev, rest2) ∧
        transfers ev = (claimed_transfers p 0 (good.map (fun s => s.codec_buf_size))).map
          (fun ch => (ch, ch.length, t)) ∧
        (transfers ev).length = good.length ∧
        ((transfers ev).map (fun x => x.1)).flatten
          = p.take (good.map (fun s => s.codec_buf_size)).sum) ∧
    (∀ (fuel : Nat) (d : AndroidChiakiVideoDecoder) (bad : InputSlot)
        (good2 rest3 : List InputSlot),
      d.shutdown = false → d.bufs_count = 2 → d.codec = codec → codec ≠ 0 →
      d.timestamp_cur = t → d.bufs.e0 = p → d.bufs_sizes.e0 = p.length →
      d.bufs_sizes.e1 = d.bufs.e1.length →
      rest = bad :: (good2 ++ rest3) → bad.codec_buf_index < 0 →
      (good.map (fun s => s.codec_buf_size)).sum < p.length →
      (∀ s ∈ good2, 0 ≤ s.codec_buf_index ∧ 0 < s.codec_buf_size) →
      d.bufs.e1.length ≤ (good2.map (fun s => s.codec_buf_size)).sum →
      ∃ d' ev1 ev2,
        android_chiaki_video_decoder_input_thread_func K (fuel + 3) d (good ++ rest)
          = some (InputThreadEnd.blocked, d',
              ev1 ++ [Event.free p] ++ ev2 ++ [Event.free d.bufs.e1]) ∧
        transfers ev1
          = (claimed_transfers p 0 (good.map (fun s => s.codec_buf_size))).map
              (fun ch => (ch, ch.length, t)) ∧
        ((transfers ev1).map (fun x => x.1)).flatten
          = p.take (good.map (fun s => s.codec_buf_size)).sum ∧
        transfers ev2
          = (claimed_transfers d.bufs.e1 0 (good2.map (fun s => s.codec_buf_size))).map
              (fun ch => (ch, ch.length, (t + 1) % UINT64_MOD)) ∧
        ((transfers ev2).map (fun x => x.1)).flatten = d.bufs.e1 ∧
        d'.bufs_count = 0 ∧ d'.shutdown = false) := by
  have hcomplete : p.length ≤ (good.map (fun s => s.codec_buf_size)).sum →
      ∃ ev rest', input_thread_transfer K codec t (good ++ rest) p p.length
          = some (ev, rest') ∧
        transfers ev = (claimed_transfers p 0 (good.map (fun s => s.codec_buf_size))).map
          (fun ch => (ch, ch.length, t)) ∧
        ((transfers ev).map (fun x => x.1)).flatten = p := by
    intro hle
    obtain ⟨ev, rest', e, htr, hfl⟩ :=
      transfer_complete K codec t p rest good 0 hg (by omega)
    simp only [List.drop_zero, Nat.sub_zero] at e hfl
    exact ⟨ev, rest', e, htr, by rw [htr, transfers_data, hfl]⟩
  refine ⟨hcomplete, ?_, ?_, ?_⟩
  · intro hle
    obtain ⟨ev, rest', e, _, hfl⟩ :=
      hcomplete (Nat.le_trans hle (caps_sum_ge_length good hg))
    exact ⟨ev, rest', e, hfl⟩
  · intro bad rest2 hrest hbad hlt
    subst hrest
    obtain ⟨ev, e, htr, hfl, hlen⟩ :=
      transfer_abandoned K codec t p bad rest2 hbad good 0 hg (by omega)
    simp only [List.drop_zero, Nat.sub_zero] at e hfl
    exact ⟨ev, e, htr, hlen, by rw [htr, transfers_data, hfl]⟩
  · intro fuel d bad good2 rest3 hs h2 hc hk ht hp hpl hql hrest hbad hlt hg2 hle
    subst hrest
    subst hc
    subst ht
    subst hp
    exact input_thread_abandons_and_proceeds K d fuel good good2 rest3 bad hs h2 hk hpl hql
      hg hbad hlt hg2 hle

/-- C10 on a five-byte unit followed by a two-byte unit, with two slots of
capacity two, a failed acquisition and a slot of capacity nine: bytes 1 to 4
of the first unit go out in two transfers with timestamp 5, byte 5 is
abandoned, the unit is freed, and the second unit goes out whole with
timestamp 6 and is freed. -/
theorem C10_slot_splitting_witness :
    (∃ ev, input_thread_transfer sampleConsts 7 5
        ([⟨0, 2, 0⟩, ⟨1, 2, 0⟩] ++ [⟨-1, 0, 0⟩, ⟨2, 9, 0⟩]) [1, 2, 3, 4, 5]
        [1, 2, 3, 4, 5].length = some (ev, [⟨2, 9, 0⟩]) ∧
      transfers ev = (claimed_transfers [1, 2, 3, 4, 5] 0
        (([⟨0, 2, 0⟩, ⟨1, 2, 0⟩] : List InputSlot).map (fun s => s.codec_buf_size))).map
          (fun ch => (ch, ch.length, 5)) ∧
      (transfers ev).length = ([⟨0, 2, 0⟩, ⟨1, 2, 0⟩] : List InputSlot).length ∧
      ((transfers ev).map (fun x => x.1)).flatten
        = ([1, 2, 3, 4, 5] : List Nat).take
            (([⟨0, 2, 0⟩, ⟨1, 2, 0⟩] : List InputSlot).map
              (fun s => s.codec_buf_size)).sum) ∧
    (∃ d' ev1 ev2,
      android_chiaki_video_decoder_input_thread_func sampleConsts (0 + 3) twoUnitsDecoder
          ([⟨0, 2, 0⟩, ⟨1, 2, 0⟩] ++ [⟨-1, 0, 0⟩, ⟨2, 9, 0⟩])
        = some (InputThreadEnd.blocked, d',
            ev1 ++ [Event.free [1, 2, 3, 4, 5]] ++ ev2
              ++ [Event.free twoUnitsDecoder.bufs.e1]) ∧
      transfers ev1 = (claimed_transfers [1, 2, 3, 4, 5] 0
        (([⟨0, 2, 0⟩, ⟨1, 2, 0⟩] : List InputSlot).map (fun s => s.codec_buf_size))).map
          (fun ch => (ch, ch.length, 5)) ∧
      ((transfers ev1).map (fun x => x.1)).flatten
        = ([1, 2, 3, 4, 5] : List Nat).take
            (([⟨0, 2, 0⟩, ⟨1, 2, 0⟩] : List InputSlot).map
              (fun s => s.codec_buf_size)).sum ∧
      transfers ev2 = (claimed_transfers twoUnitsDecoder.bufs.e1 0
        (([⟨2, 9, 0⟩] : List InputSlot).map (fun s => s.codec_buf_size))).map
          (fun ch => (ch, ch.length, (5 + 1) % UINT64_MOD)) ∧
      ((transfers ev2).map (fun x => x.1)).flatten = twoUnitsDecoder.bufs.e1 ∧
      d'.bufs_count = 0 ∧ d'.shutdown = false) ∧
    (android_chiaki_video_decoder_input_thread_func sampleConsts 3 twoUnitsDecoder
        twoSlotsThenFailure).map (fun x => (x.1, x.2.1.bufs_count, x.2.2))
      = some (InputThreadEnd.blocked, 0,
          [Event.AMediaCodec_dequeueInputBuffer 7,
           Event.AMediaCodec_getInputBuffer 7 0,
           Event.AMediaCodec_queueInputBuffer 7 0 [1, 2] 2 5 false,
           Event.AMediaCodec_dequeueInputBuffer 7,
           Event.AMediaCodec_getInputBuffer 7 1,
           Event.AMediaCodec_queueInputBuffer 7 1 [3, 4] 2 5 false,
           Event.AMediaCodec_dequeueInputBuffer 7,
           Event.CHIAKI_LOGE (LogMsg.input_buffer_failed (-1)),
           Event.free [1, 2, 3, 4, 5],
           Event.AMediaCodec_dequeueInputBuffer 7,
           Event.AMediaCodec_getInputBuffer 7 2,
           Event.AMediaCodec_queueInputBuffer 7 2 [6, 7] 2 6 false,
           Event.free [6, 7]]) :=
  ⟨(C10_slot_splitting sampleConsts 7 5 [1, 2, 3, 4, 5] [⟨0, 2, 0⟩, ⟨1, 2, 0⟩]
      [⟨-1, 0, 0⟩, ⟨2, 9, 0⟩] (by decide)).2.2.1 ⟨-1, 0, 0⟩ [⟨2, 9, 0⟩] rfl (by decide)
      (by decide),
    (C10_slot_splitting sampleConsts 7 5 [1, 2, 3, 4, 5] [⟨0, 2, 0⟩, ⟨1, 2, 0⟩]
      [⟨-1, 0, 0⟩, ⟨2, 9, 0⟩] (by decide)).2.2.2 0 twoUnitsDecoder ⟨-1, 0, 0⟩ [⟨2, 9, 0⟩] []
      (by decide) (by decide) (by decide) (by decide) (by decide) (by decide) (by decide)
      (by decide) rfl (by decide) (by decide) (by decide) (by decide),
    by decide⟩

end VideoDecoder
